import Mathlib

/-!
# GoMiler (`gitlab` package): milestone scheduling, pagination and reconciliation

A shallow embedding of `src/gitlab/gitlab.go`.

* Go maps `map[string]milestone` are association lists with pairwise distinct
  keys (`AList`).  A `range` over a map visits every entry once, in the order
  of the list; since the theorems quantify over all such lists, they hold for
  every iteration order.
* `time.Time` values are modelled twice.  `Zone.Time` keeps the instant and the
  location and follows `time.Date` through the zone lookup; it is the model of
  the code on `time.Now().Local()`.  `Time` keeps the calendar day only; it is the
  special case of a location without zone transitions (`addDate_days_fixed`,
  `zone_Weekday_eq`, `zone_ISOWeek_eq`, `zone_Format_eq`) and carries the
  calendar arithmetic.
* The functions of Go's standard `time`, `strconv` and of `peterhellberg/link`
  that the file calls are modelled next to the code that uses them.
-/

namespace GoMiler

/-! ## Data model -/

/-- The struct `milestone` (gitlab.go, lines 54-59). -/
structure milestone where
  DueDate : String
  ID : String
  Title : String
  State : String
deriving DecidableEq, Repr

/-- The struct `gitlabAPI` (gitlab.go, lines 32-51), with its scalar fields.
`UpdatedAt`, `CreatedAt` and `NameSpace` are read by none of the functions
embedded here. -/
structure gitlabAPI where
  ID : Int
  Iid : Int
  ProjectID : Int
  Title : String
  Description : String
  StartDate : String
  DueDate : String
  State : String
  Name : String
deriving DecidableEq, Repr

/-- The Go type `map[string]milestone`. -/
abbrev GoMap := AList (fun _ : String => milestone)

/-- The zero value `var m milestone`. -/
def milestone.zero : milestone := ⟨"", "", "", ""⟩

/-! ## `strconv.Itoa` -/

/-- The decimal digit `d` (for `d < 10`) as a character. -/
def digitChar : Nat → Char
  | 0 => '0'
  | 1 => '1'
  | 2 => '2'
  | 3 => '3'
  | 4 => '4'
  | 5 => '5'
  | 6 => '6'
  | 7 => '7'
  | 8 => '8'
  | _ => '9'

/-- The decimal digits of `n`, most significant first, without padding;
`fuel` bounds the number of digits. -/
def natDigits : Nat → Nat → List Char
  | 0, _ => []
  | fuel + 1, n =>
    if n < 10 then [digitChar n] else natDigits fuel (n / 10) ++ [digitChar (n % 10)]

/-- Go's `strconv.Itoa`: decimal, a leading `-` for negative numbers, no padding. -/
def Itoa (i : Int) : String :=
  if i < 0 then String.mk ('-' :: natDigits (i.natAbs + 1) i.natAbs)
  else String.mk (natDigits (i.toNat + 1) i.toNat)

/-! ## Reconciliation (gitlab.go, lines 109-120 and 304-363) -/

/-- The function `createGitlabMilestoneMap` (lines 109-120): records are stored
under their title, a later record replacing an earlier one of the same title. -/
def createGitlabMilestoneMap (api : List gitlabAPI) : GoMap :=
  api.foldl
    (fun milestones v =>
      let m : milestone :=
        { milestone.zero with DueDate := v.DueDate, ID := Itoa v.ID, Title := v.Title }
      milestones.insert v.Title m)
    ∅

/-- The inner loop of lines 319-323: `for ok := range activeMilestones`, deleting
`k` from `newMilestones` whenever `k == ok`. -/
def deleteIfActive (activeMilestones : GoMap) (newMilestones : GoMap) (k : String) : GoMap :=
  activeMilestones.keys.foldl
    (fun acc ok => if k = ok then acc.erase k else acc)
    newMilestones

/-- Lines 313-324 of `CreateAndDisplayNewMilestones`: the map `newMilestones`
computed from the desired map `milestoneData` and the map `activeMilestones`.
The first loop copies `milestoneData`, the second deletes every key that is
also a key of `activeMilestones`. -/
def newMilestones (milestoneData activeMilestones : GoMap) : GoMap :=
  let newMilestones : GoMap :=
    milestoneData.entries.foldl (fun acc e => acc.insert e.1 e.2) ∅
  milestoneData.keys.foldl (deleteIfActive activeMilestones) newMilestones

/-- The pure part of `CreateAndDisplayNewMilestones` (lines 311-324): given the
records returned by `getActiveMilestones` and the desired map `milestoneData`,
the map `newMilestones` that is logged and handed to `createMilestones`. -/
def CreateAndDisplayNewMilestones (activeMilestonesAPI : List gitlabAPI)
    (milestoneData : GoMap) : GoMap :=
  let activeMilestones := createGitlabMilestoneMap activeMilestonesAPI
  newMilestones milestoneData activeMilestones

/-- The inner loop of lines 356-360: `for ek, ev := range closedGitlabMilestones`,
storing `ev` under `ek` whenever `k == ek`. -/
def copyIfClosed (closedGitlabMilestones : GoMap) (milestones : GoMap) (k : String) : GoMap :=
  closedGitlabMilestones.entries.foldl
    (fun acc e => if k = e.1 then acc.insert e.1 e.2 else acc)
    milestones

/-- Lines 354-361 of `GetClosedMilestones`: the map `milestones` computed from
the desired map `milestoneData` and the map `closedGitlabMilestones`. -/
def closedMilestones (milestoneData closedGitlabMilestones : GoMap) : GoMap :=
  milestoneData.keys.foldl (copyIfClosed closedGitlabMilestones) ∅

/-- The pure part of `GetClosedMilestones` (lines 351-362): given the records
returned by `getInactiveMilestones` and the desired map, the returned map. -/
def GetClosedMilestones (closedMilestonesAPI : List gitlabAPI)
    (milestoneData : GoMap) : GoMap :=
  let closedGitlabMilestones := createGitlabMilestoneMap closedMilestonesAPI
  closedMilestones milestoneData closedGitlabMilestones

/-! ## Go's `time` package on calendar days

The calendar arithmetic of the standard library (`daysSinceEpoch`, `absDate`, `norm`,
`isLeap`, `appendInt`) and, on top of it, `time.Date`, `AddDate`, `Weekday`, `ISOWeek`
and `Format` for a `Time` that is a day of the proleptic Gregorian calendar, without
time of day and without location.  This is how the library behaves in a location
without zone transitions, such as `time.UTC`, in which `lastDayMonth` builds its
result.  In a location with transitions `AddDate` also depends on the zone; that is
the subject of the section on the local zone below.

Go counts days from 1 January of the year `-292277022399`, which is
`1 - 400 * 730692556`; here days are counted from 1 January of the year 1.  The two
counts differ by a whole number of 400-year cycles (146097 days, a whole number of
weeks), so the unsigned quotients of the library are the floor quotients used here. -/

/-- A `time.Time`, as a calendar day: `abs` is the number of days since 0001-01-01. -/
structure Time where
  abs : Int
deriving DecidableEq, Repr

/-- Go's `isLeap`. -/
def isLeap (year : Int) : Bool :=
  year % 4 == 0 && (year % 100 != 0 || year % 400 == 0)

/-- Go's table `daysBefore`: `daysBefore m` is the number of days in a non-leap year
before month `m + 1`. -/
def daysBefore : Nat → Int
  | 0 => 0
  | 1 => 31
  | 2 => 59
  | 3 => 90
  | 4 => 120
  | 5 => 151
  | 6 => 181
  | 7 => 212
  | 8 => 243
  | 9 => 273
  | 10 => 304
  | 11 => 334
  | _ => 365

/-- Go's `norm(hi, lo, base)`: carries `lo` into `hi` so that `0 <= lo < base`. -/
def norm (hi lo base : Int) : Int × Int :=
  let (hi, lo) :=
    if lo < 0 then
      let n := (-lo - 1) / base + 1
      (hi - n, lo + n * base)
    else (hi, lo)
  if lo ≥ base then
    let n := lo / base
    (hi + n, lo - n * base)
  else (hi, lo)

/-- Go's `daysSinceEpoch`: the number of days from the epoch to 1 January of `year`. -/
def daysSinceEpoch (year : Int) : Int :=
  let y := year - 1
  -- Add in days from 400-year cycles.
  let n := y / 400
  let y := y - 400 * n
  let d := 146097 * n
  -- Add in 100-year cycles.
  let n := y / 100
  let y := y - 100 * n
  let d := d + 36524 * n
  -- Add in 4-year cycles.
  let n := y / 4
  let y := y - 4 * n
  let d := d + 1461 * n
  -- Add in non-leap years.
  d + 365 * y

/-- Go's `time.Date(year, month, day, 0, 0, 0, 0, loc)`: month and day may lie outside
their usual ranges and are normalised. -/
def Date (year month day : Int) : Time :=
  -- Normalize month, overflowing into year.
  let m := month - 1
  let (year, m) := norm year m 12
  let month := m + 1
  -- Compute days since the absolute epoch.
  let d := daysSinceEpoch year
  -- Add in days before this month.
  let d := d + daysBefore (month - 1).toNat
  let d := if isLeap year && month ≥ 3 then d + 1 else d
  -- Add in days before today.
  ⟨d + (day - 1)⟩

/-- The first half of Go's `absDate`: the year of a day and the zero-based day within
that year. -/
def absYear (abs : Int) : Int × Int :=
  let d := abs
  -- Account for 400 year cycles.
  let n := d / 146097
  let y := 400 * n
  let d := d - 146097 * n
  -- Cut off 100-year cycles; the last cycle has one extra leap year.
  let n := d / 36524
  let n := n - n / 4
  let y := y + 100 * n
  let d := d - 36524 * n
  -- Cut off 4-year cycles.
  let n := d / 1461
  let y := y + 4 * n
  let d := d - 1461 * n
  -- Cut off years within a 4-year cycle.
  let n := d / 365
  let n := n - n / 4
  let y := y + n
  let d := d - 365 * n
  (y + 1, d)

/-- The second half of Go's `absDate`: month and day of the month from the year and
the zero-based day of the year. -/
def monthDay (year yday : Int) : Int × Int :=
  if isLeap year && yday == 31 + 29 - 1 then
    -- Leap day.
    (2, 29)
  else
    -- After leap day; pretend it was not there.
    let day := if isLeap year && yday > 31 + 29 - 1 then yday - 1 else yday
    -- Estimate month on assumption that every month has 31 days.
    let month := day / 31
    let end_ := daysBefore (month + 1).toNat
    let (month, begin_) :=
      if day ≥ end_ then (month + 1, end_) else (month, daysBefore month.toNat)
    (month + 1, day - begin_ + 1)

/-- Go's `Time.Year`. -/
def Time.Year (t : Time) : Int := (absYear t.abs).1

/-- Go's `Time.YearDay`, zero-based as in `absDate`. -/
def Time.yday (t : Time) : Int := (absYear t.abs).2

/-- Go's `Time.Month` (January is 1). -/
def Time.Month (t : Time) : Int := (monthDay t.Year t.yday).1

/-- Go's `Time.Day`. -/
def Time.Day (t : Time) : Int := (monthDay t.Year t.yday).2

/-- Go's `Time.Weekday`, Sunday is 0; day 0 of the count is a Monday. -/
def Time.Weekday (t : Time) : Int := (t.abs + 1) % 7

/-- Go's `time.Sunday`. -/
def Sunday : Int := 0

/-- Go's `time.Thursday`. -/
def Thursday : Int := 4

/-- Go's `Time.AddDate` on calendar days: the date fields are shifted and normalised by
`Date`.  In a location with zone transitions see `Zone.Time.AddDate`. -/
def Time.AddDate (t : Time) (years months days : Int) : Time :=
  Date (t.Year + years) (t.Month + months) (t.Day + days)

/-- Go's `Time.ISOWeek`: the year and week of the Thursday of the day's week. -/
def Time.ISOWeek (t : Time) : Int × Int :=
  let d := Thursday - t.Weekday
  -- handle Sunday
  let d := if d == 4 then -3 else d
  -- find the Thursday of the calendar week
  let abs := t.abs + d
  let (year, yday) := absYear abs
  (year, yday / 7 + 1)

/-- Go's `appendInt`: decimal digits of `x`, a leading `-` when negative, zero-padded
to `width` digits. -/
def appendInt (x : Int) (width : Nat) : List Char :=
  let u := x.natAbs
  let ds := natDigits (u + 1) u
  (if x < 0 then ['-'] else []) ++ (List.replicate (width - ds.length) '0' ++ ds)

/-- Go's `t.Format("2006-01-02")`. -/
def Time.Format_2006_01_02 (t : Time) : String :=
  String.mk (appendInt t.Year 4 ++ '-' :: appendInt t.Month 2 ++ '-' :: appendInt t.Day 2)

/-- Go's `t.Format("2006-01")`. -/
def Time.Format_2006_01 (t : Time) : String :=
  String.mk (appendInt t.Year 4 ++ '-' :: appendInt t.Month 2)

/-! ## The period calculator (gitlab.go, lines 61-76 and 229-275) on calendar days -/

/-- The function `lastDayMonth` (lines 61-65): day 0 of the following month.  The
`timezone` argument is not used by the source. -/
def lastDayMonth (year month : Int) : Time :=
  Date year (month + 1) 0

/-- The loop of `lastDayWeek` (lines 70-72).  `fuel` bounds the number of executions of
the loop body; `none` means that the bound was reached before a Sunday. -/
def lastDayWeekLoop : Nat → Time → Option Time
  | 0, lastDay => if lastDay.Weekday ≠ Sunday then none else some lastDay
  | fuel + 1, lastDay =>
    if lastDay.Weekday ≠ Sunday then lastDayWeekLoop fuel (lastDay.AddDate 0 0 1)
    else some lastDay

/-- The function `lastDayWeek` (lines 67-76). -/
def lastDayWeek (fuel : Nat) (lastDay : Time) : Option Time :=
  if lastDay.Weekday ≠ Sunday then lastDayWeekLoop fuel lastDay
  else some lastDay

/-- The body of the `daily` loop (lines 236-242) at index `i`: the milestone `m`
stored under `m.Title`. -/
def dailyMilestone (today : Time) (i : Nat) : milestone :=
  let title := (today.AddDate 0 0 i).Format_2006_01_02
  let dueDate := (today.AddDate 0 0 i).Format_2006_01_02
  { milestone.zero with Title := title, DueDate := dueDate }

/-- The `weekly` loop (lines 245-256) with `n` iterations left: the milestones `m` in
the order in which they are stored; `today` is advanced to `lastDay.AddDate(0, 0, 7)`. -/
def weeklyMilestones (fuel : Nat) : Nat → Time → Option (List milestone)
  | 0, _ => some []
  | n + 1, today =>
    match lastDayWeek fuel today with
    | none => none
    | some lastDay =>
      let (year, week) := lastDay.ISOWeek
      let title := Itoa year ++ "-w" ++ Itoa week
      let dueDate := lastDay.Format_2006_01_02
      let m : milestone := { milestone.zero with Title := title, DueDate := dueDate }
      match weeklyMilestones fuel n (lastDay.AddDate 0 0 7) with
      | none => none
      | some rest => some (m :: rest)

/-- The body of the `monthly` loop (lines 259-267) at index `i`. -/
def monthlyMilestone (today : Time) (i : Nat) : milestone :=
  let date := today.AddDate 0 i 0
  let lastDay := lastDayMonth date.Year date.Month
  let title := date.Format_2006_01
  let dueDate := lastDay.Format_2006_01_02
  { milestone.zero with Title := title, DueDate := dueDate }

/-- The assignments `milestones[title] = m` of a loop, in order, on the empty map. -/
def storeAll (ms : List milestone) : GoMap :=
  ms.foldl (fun milestones m => milestones.insert m.Title m) ∅

/-- The function `CreateMilestoneData` (lines 229-275) on calendar days, with the start
date `today` as an argument instead of `time.Now().Local()`, and without the log line
of the default branch.  `fuel` bounds the loop of `lastDayWeek`.  With the location of
`today` see `Zone.CreateMilestoneData`. -/
def CreateMilestoneData (fuel : Nat) (advance : Int) (interval : String) (today : Time) :
    Option GoMap :=
  if interval = "daily" then
    some (storeAll ((List.range advance.toNat).map (dailyMilestone today)))
  else if interval = "weekly" then
    (weeklyMilestones fuel advance.toNat today).map storeAll
  else if interval = "monthly" then
    some (storeAll ((List.range advance.toNat).map (monthlyMilestone today)))
  else
    some ∅

/-! ## Pagination (gitlab.go, lines 122-160) -/

/-- A `[]byte`. -/
abbrev Bytes := List Nat

/-- A link of `peterhellberg/link`: the target and the relation. -/
structure Link where
  URI : String
  Rel : String
deriving DecidableEq, Repr

/-- What `paginate` reads of a response: the result of `ioutil.ReadAll(resp.Body)` and
`link.Parse(resp.Header.Get("Link"))`, the links of the `Link` header. -/
structure Response where
  Body : Except String Bytes
  Links : List Link

/-- The remote: the result of `http.NewRequest("GET", URL, nil)` followed by
`client.Do(req)` with the `PRIVATE-TOKEN` header, for a URL and a token. -/
abbrev Remote := String → String → Except String Response

/-- The loop over `parsedHeader` (lines 147-157): a link of relation `next` sets `URL`
and `paginate`. -/
def nextPage (parsedHeader : List Link) (URL : String) : String × Bool :=
  parsedHeader.foldl
    (fun st elem => if elem.Rel ≠ "next" then st else (elem.URI, true))
    (URL, false)

/-- The loop of `paginate` (lines 126-158).  `fuel` bounds the number of requests;
`none` means that the bound was reached while a `next` link was still present. -/
def paginateLoop (remote : Remote) (token : String) :
    Nat → String → List Bytes → Option (Except String (List Bytes))
  | 0, _, _ => none
  | fuel + 1, URL, apiData =>
    match remote URL token with
    | .error err => some (.error err)
    | .ok resp =>
      match resp.Body with
      | .error err => some (.error err)
      | .ok respByte =>
        let apiData := apiData ++ [respByte]
        let (URL, paginate) := nextPage resp.Links URL
        if paginate then paginateLoop remote token fuel URL apiData
        else some (.ok apiData)

/-- The function `paginate` (lines 122-160).  `make([][]byte, 1)` is a slice that
already holds one element, the nil slice. -/
def paginate (remote : Remote) (fuel : Nat) (URL token : String) :
    Option (Except String (List Bytes)) :=
  paginateLoop remote token fuel URL [[]]

/-- A remote serving three pages: `p1` and `p2` carry a `next` link, `p3` does not. -/
def threePages : Remote := fun URL _ =>
  if URL = "p1" then .ok ⟨.ok [1], [⟨"p0", "first"⟩, ⟨"p2", "next"⟩]⟩
  else if URL = "p2" then .ok ⟨.ok [2], [⟨"p3", "next"⟩, ⟨"p1", "prev"⟩]⟩
  else if URL = "p3" then .ok ⟨.ok [3], [⟨"p2", "prev"⟩]⟩
  else .error "not found"

/-- A remote serving one page without a `next` link. -/
def onePage : Remote := fun URL _ =>
  if URL = "p1" then .ok ⟨.ok [91, 93], []⟩ else .error "not found"

/-! ## Go's `time` package with the local zone

`CreateMilestoneData` starts from `time.Now().Local()`, and `AddDate` rebuilds its
result with `time.Date` in the location of its receiver.  The definitions of this
section keep the instant (Unix seconds) and the location of a `time.Time`, and follow
`Location.lookup`, `time.Date`, `Time.abs`, `absClock`, `absWeekday`, `AddDate` and
`ISOWeek` of the standard library; nanoseconds are carried along unchanged by the
library and are not represented.  The functions of gitlab.go that read the clock are
embedded a second time on these values. -/

namespace Zone

/-- A zone transition of a location: from the instant `when` (Unix seconds) on, local
time is `offset` seconds east of UTC. -/
structure zoneTrans where
  when : Int
  offset : Int
deriving DecidableEq, Repr

/-- A `time.Location`: the offset in force before the first transition, and the
transitions in increasing order of `when`. -/
structure Location where
  first : Int
  tx : List zoneTrans
deriving DecidableEq, Repr

/-- Go's `alpha`, the start of the zone in force before the first transition. -/
def alpha : Int := -(2 ^ 63)

/-- Go's `omega`, the end of the zone in force after the last transition. -/
def omega : Int := 2 ^ 63 - 1

/-- The search of `Location.lookup`: the transition with the largest `when <= sec`;
the result is the offset in force at `sec` and the start and end of its validity. -/
def lookupFrom : Int → Int → List zoneTrans → Int → Int × Int × Int
  | offset, start, [], _ => (offset, start, omega)
  | offset, start, tr :: rest, sec =>
    if sec < tr.when then (offset, start, tr.when)
    else lookupFrom tr.offset tr.when rest sec

/-- Go's `Location.lookup`: offset, start and end of the zone in force at `sec`. -/
def Location.lookup (l : Location) (sec : Int) : Int × Int × Int :=
  lookupFrom l.first alpha l.tx sec

/-- Go's `time.UTC`. -/
def UTC : Location := ⟨0, []⟩

/-- A `time.Time`: the instant in Unix seconds and the location. -/
structure Time where
  unix : Int
  loc : Location
deriving DecidableEq, Repr

/-- Go's `unixToInternal`: the seconds from 1 January of the year 1 to 1 January 1970. -/
def unixToInternal : Int := (1969 * 365 + 1969 / 4 - 1969 / 100 + 1969 / 400) * 86400

/-- Go's `Time.abs`: the local time as seconds since 1 January of the year 1. -/
def Time.abs (t : Time) : Int :=
  t.unix + (t.loc.lookup t.unix).1 + unixToInternal

/-- Go's `Time.Year`. -/
def Time.Year (t : Time) : Int := (absYear (t.abs / 86400)).1

/-- Go's `Time.YearDay`, zero-based as in `absDate`. -/
def Time.yday (t : Time) : Int := (absYear (t.abs / 86400)).2

/-- Go's `Time.Month`. -/
def Time.Month (t : Time) : Int := (monthDay t.Year t.yday).1

/-- Go's `Time.Day`. -/
def Time.Day (t : Time) : Int := (monthDay t.Year t.yday).2

/-- Go's `Time.Clock` (`absClock`): hour, minute and second of the local time. -/
def Time.Clock (t : Time) : Int × Int × Int :=
  let sec := t.abs % 86400
  let hour := sec / 3600
  let sec := sec - hour * 3600
  let min := sec / 60
  let sec := sec - min * 60
  (hour, min, sec)

/-- Go's `Time.Weekday` (`absWeekday`), Sunday is 0. -/
def Time.Weekday (t : Time) : Int :=
  -- January 1 of the absolute year, like January 1 of 2001, was a Monday.
  let sec := (t.abs + 1 * 86400) % (7 * 86400)
  sec / 86400

/-- Go's `time.Date(year, month, day, hour, min, sec, 0, loc)`. -/
def Date (year month day hour min sec : Int) (loc : Location) : Time :=
  -- Normalize month, overflowing into year.
  let m := month - 1
  let (year, m) := norm year m 12
  let month := m + 1
  -- Normalize sec, min, hour, overflowing into day.
  let (min, sec) := norm min sec 60
  let (hour, min) := norm hour min 60
  let (day, hour) := norm day hour 24
  -- Compute days since the absolute epoch.
  let d := daysSinceEpoch year
  -- Add in days before this month.
  let d := d + daysBefore (month - 1).toNat
  let d := if isLeap year && month ≥ 3 then d + 1 else d
  -- Add in days before today.
  let d := d + (day - 1)
  -- Add in time elapsed today.
  let abs := d * 86400
  let abs := abs + (hour * 3600 + min * 60 + sec)
  let unix := abs - unixToInternal
  -- Look for zone offset for expected time, so we can adjust to UTC.
  let (offset, start, end_) := loc.lookup unix
  let unix :=
    if offset ≠ 0 then
      let utc := unix - offset
      -- If utc is valid for the time zone we found, then we have the right offset.
      -- If not, we get the correct offset by looking up utc in the location.
      let offset := if utc < start ∨ utc ≥ end_ then (loc.lookup utc).1 else offset
      unix - offset
    else unix
  ⟨unix, loc⟩

/-- Go's `Time.AddDate`. -/
def Time.AddDate (t : Time) (years months days : Int) : Time :=
  let (hour, min, sec) := t.Clock
  Date (t.Year + years) (t.Month + months) (t.Day + days) hour min sec t.loc

/-- Go's `Time.ISOWeek`. -/
def Time.ISOWeek (t : Time) : Int × Int :=
  let abs := t.abs
  let d := Thursday - t.Weekday
  -- handle Sunday
  let d := if d == 4 then -3 else d
  -- find the Thursday of the calendar week
  let abs := abs + d * 86400
  let (year, yday) := absYear (abs / 86400)
  (year, yday / 7 + 1)

/-- Go's `t.Format("2006-01-02")`. -/
def Time.Format_2006_01_02 (t : Time) : String :=
  String.mk (appendInt t.Year 4 ++ '-' :: appendInt t.Month 2 ++ '-' :: appendInt t.Day 2)

/-- Go's `t.Format("2006-01")`. -/
def Time.Format_2006_01 (t : Time) : String :=
  String.mk (appendInt t.Year 4 ++ '-' :: appendInt t.Month 2)

/-- The function `lastDayMonth` (lines 61-65), at midnight UTC. -/
def lastDayMonth (year month : Int) : Time :=
  Date year (month + 1) 0 0 0 0 UTC

/-- The loop of `lastDayWeek` (lines 70-72); `fuel` bounds the number of executions of
the loop body. -/
def lastDayWeekLoop : Nat → Time → Option Time
  | 0, lastDay => if lastDay.Weekday ≠ Sunday then none else some lastDay
  | fuel + 1, lastDay =>
    if lastDay.Weekday ≠ Sunday then lastDayWeekLoop fuel (lastDay.AddDate 0 0 1)
    else some lastDay

/-- The function `lastDayWeek` (lines 67-76). -/
def lastDayWeek (fuel : Nat) (lastDay : Time) : Option Time :=
  if lastDay.Weekday ≠ Sunday then lastDayWeekLoop fuel lastDay
  else some lastDay

/-- The body of the `daily` loop (lines 236-242) at index `i`. -/
def dailyMilestone (today : Time) (i : Nat) : milestone :=
  let title := (today.AddDate 0 0 i).Format_2006_01_02
  let dueDate := (today.AddDate 0 0 i).Format_2006_01_02
  { milestone.zero with Title := title, DueDate := dueDate }

/-- The `weekly` loop (lines 245-256) with `n` iterations left. -/
def weeklyMilestones (fuel : Nat) : Nat → Time → Option (List milestone)
  | 0, _ => some []
  | n + 1, today =>
    match lastDayWeek fuel today with
    | none => none
    | some lastDay =>
      let (year, week) := lastDay.ISOWeek
      let title := Itoa year ++ "-w" ++ Itoa week
      let dueDate := lastDay.Format_2006_01_02
      let m : milestone := { milestone.zero with Title := title, DueDate := dueDate }
      match weeklyMilestones fuel n (lastDay.AddDate 0 0 7) with
      | none => none
      | some rest => some (m :: rest)

/-- The body of the `monthly` loop (lines 259-267) at index `i`. -/
def monthlyMilestone (today : Time) (i : Nat) : milestone :=
  let date := today.AddDate 0 i 0
  let lastDay := lastDayMonth date.Year date.Month
  let title := date.Format_2006_01
  let dueDate := lastDay.Format_2006_01_02
  { milestone.zero with Title := title, DueDate := dueDate }

/-- The function `CreateMilestoneData` (lines 229-275) on a start time `today` with its
location, the value of `time.Now().Local()`. -/
def CreateMilestoneData (fuel : Nat) (advance : Int) (interval : String) (today : Time) :
    Option GoMap :=
  if interval = "daily" then
    some (storeAll ((List.range advance.toNat).map (dailyMilestone today)))
  else if interval = "weekly" then
    (weeklyMilestones fuel advance.toNat today).map storeAll
  else if interval = "monthly" then
    some (storeAll ((List.range advance.toNat).map (monthlyMilestone today)))
  else
    some ∅

/-- The location `America/Sao_Paulo` around the start of daylight saving time in 2018:
UTC-3 until 2018-11-04 00:00 local time (03:00 UTC), when clocks moved to 01:00
(UTC-2); back to UTC-3 on 2019-02-17 at 02:00 UTC. -/
def SaoPaulo : Location :=
  ⟨-10800, [⟨1541300400, -7200⟩, ⟨1550368800, -10800⟩]⟩

end Zone

/-! ## Auxiliary definitions used to state the lemmas and the claims -/

/-- The number of days of a year. -/
def yearLen (y : Int) : Int := if isLeap y then 366 else 365

/-- The number of days of month `m` in a leap or non-leap year. -/
def daysIn (leap : Bool) (m : Int) : Int :=
  if m = 2 then (if leap then 29 else 28)
  else if m = 4 ∨ m = 6 ∨ m = 9 ∨ m = 11 then 30 else 31

/-- The zero-based day of the year on which month `m` begins. -/
def monthOffset (leap : Bool) (m : Int) : Int :=
  daysBefore (m - 1).toNat + (if leap && decide (m ≥ 3) then 1 else 0)

/-- The value of a decimal digit character. -/
def digitVal (c : Char) : Nat := c.toNat - 48

/-- The number written by a list of decimal digits, continuing from `a`. -/
def digitsVal (a : Nat) (cs : List Char) : Nat :=
  cs.foldl (fun a c => 10 * a + digitVal c) a

/-- The digits written by `appendInt` for a number that is not negative. -/
def padded (u width : Nat) : List Char :=
  List.replicate (width - (natDigits (u + 1) u).length) '0' ++ natDigits (u + 1) u

/-- The number of days from a day to the first Sunday at or after it. -/
def sundayGap (t : Time) : Int := (7 - t.Weekday) % 7

/-- The milestone that the weekly loop stores for the due Sunday `lastDay`. -/
def weeklyMilestone (lastDay : Time) : milestone :=
  { DueDate := lastDay.Format_2006_01_02, ID := "",
    Title := Itoa lastDay.ISOWeek.1 ++ "-w" ++ Itoa lastDay.ISOWeek.2, State := "" }

/-- The desired map `{A, B, C}` over the titles `"A"`, `"B"`, `"C"`. -/
def desiredABC : GoMap :=
  (((∅ : GoMap).insert "A" ⟨"2024-01-01", "", "A", ""⟩).insert "B"
    ⟨"2024-01-02", "", "B", ""⟩).insert "C" ⟨"2024-01-03", "", "C", ""⟩

/-- A remote record of the given id and title. -/
def remoteRecord (id : Int) (title due : String) : gitlabAPI :=
  { ID := id, Iid := id, ProjectID := 1, Title := title, Description := "",
    StartDate := "", DueDate := due, State := "", Name := "" }

/-- The remote serves, from `URL` on, a chain of pages with the bodies `bodies`: every
page but the last carries a `next` link to the following page, the last page none. -/
def servesChain (remote : Remote) (token : String) : String → List Bytes → Prop
  | _, [] => False
  | URL, [b] =>
    ∃ links, remote URL token = .ok ⟨.ok b, links⟩ ∧ (nextPage links URL).2 = false
  | URL, b :: b2 :: rest =>
    ∃ links, remote URL token = .ok ⟨.ok b, links⟩ ∧ (nextPage links URL).2 = true ∧
      servesChain remote token (nextPage links URL).1 (b2 :: rest)

/-- The local calendar day of a time with its location, as a day number. -/
def Zone.Time.day (t : Zone.Time) : Int := t.abs / 86400

/-! ## Lemmas on maps -/

theorem foldl_insert_lookup (l : List (Sigma fun _ : String => milestone))
    (h : l.NodupKeys) (acc : GoMap) (t : String) :
    (l.foldl (fun acc e => acc.insert e.1 e.2) acc).lookup t
      = (List.dlookup t l).orElse (fun _ => acc.lookup t) := by
  induction l generalizing acc with
  | nil => simp
  | cons e l ih =>
    obtain ⟨k, v⟩ := e
    have hk : k ∉ l.keys := (List.nodupKeys_cons.1 h).1
    have hl : l.NodupKeys := (List.nodupKeys_cons.1 h).2
    rw [List.foldl_cons, ih hl]
    by_cases htk : t = k
    · subst htk
      have : List.dlookup t l = none := List.dlookup_eq_none.2 hk
      simp [this, List.dlookup_cons_eq]
    · have hne : t ≠ k := htk
      rw [List.dlookup_cons_ne _ _ hne, AList.lookup_insert_ne hne]

theorem copy_lookup (m : GoMap) (t : String) :
    (m.entries.foldl (fun acc e => acc.insert e.1 e.2) (∅ : GoMap)).lookup t = m.lookup t := by
  rw [foldl_insert_lookup _ m.nodupKeys]
  simp only [AList.lookup, AList.empty_entries]
  cases List.dlookup t m.entries <;> simp

theorem deleteIfActive_foldl_lookup (ks : List String) (acc : GoMap) (k t : String) :
    (ks.foldl (fun acc ok => if k = ok then acc.erase k else acc) acc).lookup t
      = if t = k ∧ k ∈ ks then none else acc.lookup t := by
  induction ks generalizing acc with
  | nil => simp
  | cons ok ks ih =>
    rw [List.foldl_cons, ih]
    by_cases hk : k = ok
    · subst hk
      by_cases ht : t = k
      · subst ht; simp
      · simp [ht, AList.lookup_erase_ne ht]
    · by_cases ht : t = k
      · subst ht; simp [hk]
      · simp [ht, hk]

theorem deleteIfActive_lookup (active acc : GoMap) (k t : String) :
    (deleteIfActive active acc k).lookup t
      = if t = k ∧ k ∈ active then none else acc.lookup t := by
  unfold deleteIfActive
  rw [deleteIfActive_foldl_lookup]
  simp [AList.mem_keys]

theorem deleteLoop_lookup (active : GoMap) (ks : List String) (acc : GoMap) (t : String) :
    (ks.foldl (deleteIfActive active) acc).lookup t
      = if t ∈ ks ∧ t ∈ active then none else acc.lookup t := by
  induction ks generalizing acc with
  | nil => simp
  | cons k ks ih =>
    rw [List.foldl_cons, ih, deleteIfActive_lookup]
    by_cases h2 : t = k
    · subst h2
      by_cases h1 : t ∈ active <;> simp [h1]
    · simp [h2]

/-- The create set as a lookup function: the desired entry, unless the title is active. -/
theorem newMilestones_lookup (desired active : GoMap) (t : String) :
    (newMilestones desired active).lookup t
      = if t ∈ active then none else desired.lookup t := by
  unfold newMilestones
  simp only
  rw [deleteLoop_lookup, copy_lookup]
  by_cases h1 : t ∈ active
  · by_cases h2 : t ∈ desired
    · have : t ∈ desired.keys := AList.mem_keys.1 h2
      simp [h1, this]
    · have : desired.lookup t = none := AList.lookup_eq_none.2 h2
      simp [h1, this]
  · simp [h1]

theorem mem_iff_lookup_ne_none (m : GoMap) (t : String) : t ∈ m ↔ m.lookup t ≠ none := by
  rw [Ne, AList.lookup_eq_none]; simp

theorem newMilestones_mem (desired active : GoMap) (t : String) :
    t ∈ newMilestones desired active ↔ t ∈ desired ∧ t ∉ active := by
  rw [mem_iff_lookup_ne_none, newMilestones_lookup, mem_iff_lookup_ne_none desired]
  by_cases h : t ∈ active <;> simp [h]

theorem copyIfClosed_foldl_lookup (l : List (Sigma fun _ : String => milestone))
    (h : l.NodupKeys) (acc : GoMap) (k t : String) :
    (l.foldl (fun acc e => if k = e.1 then acc.insert e.1 e.2 else acc) acc).lookup t
      = if t = k ∧ k ∈ l.keys then List.dlookup t l else acc.lookup t := by
  induction l generalizing acc with
  | nil => simp
  | cons e l ih =>
    obtain ⟨ek, ev⟩ := e
    have hk : ek ∉ l.keys := (List.nodupKeys_cons.1 h).1
    have hl : l.NodupKeys := (List.nodupKeys_cons.1 h).2
    rw [List.foldl_cons, ih hl]
    by_cases hkk : k = ek
    · subst hkk
      by_cases ht : t = k
      · subst ht
        simp [hk, List.dlookup_cons_eq]
      · simp [ht]
    · by_cases ht : t = k
      · subst ht
        have hne : t ≠ ek := hkk
        have hd : List.dlookup t (⟨ek, ev⟩ :: l) = List.dlookup t l :=
          List.dlookup_cons_ne l ⟨ek, ev⟩ hne
        simp [hkk, hd]
      · simp [ht, hkk]

theorem copyIfClosed_lookup (closed acc : GoMap) (k t : String) :
    (copyIfClosed closed acc k).lookup t
      = if t = k ∧ k ∈ closed then closed.lookup t else acc.lookup t := by
  unfold copyIfClosed
  rw [copyIfClosed_foldl_lookup _ closed.nodupKeys]
  by_cases h : t = k ∧ k ∈ closed
  · have h2 : t = k ∧ k ∈ closed.entries.keys := h
    rw [if_pos h, if_pos h2]; rfl
  · have h2 : ¬ (t = k ∧ k ∈ closed.entries.keys) := h
    rw [if_neg h, if_neg h2]

theorem copyLoop_lookup (closed : GoMap) (ks : List String) (acc : GoMap) (t : String) :
    (ks.foldl (copyIfClosed closed) acc).lookup t
      = if t ∈ ks ∧ t ∈ closed then closed.lookup t else acc.lookup t := by
  induction ks generalizing acc with
  | nil => simp
  | cons k ks ih =>
    rw [List.foldl_cons, ih, copyIfClosed_lookup]
    by_cases h2 : t = k
    · subst h2
      by_cases h1 : t ∈ closed <;> simp [h1]
    · simp [h2]

/-- The reactivation map as a lookup function: the closed record, if the title is desired. -/
theorem closedMilestones_lookup (desired closed : GoMap) (t : String) :
    (closedMilestones desired closed).lookup t
      = if t ∈ desired then closed.lookup t else none := by
  unfold closedMilestones
  rw [copyLoop_lookup]
  have he : (∅ : GoMap).lookup t = none := rfl
  rw [he]
  by_cases h1 : t ∈ desired
  · have : t ∈ desired.keys := AList.mem_keys.1 h1
    by_cases h2 : t ∈ closed
    · simp [h1, h2, this]
    · have : closed.lookup t = none := AList.lookup_eq_none.2 h2
      simp [h1, h2, this]
  · have : t ∉ desired.keys := fun h => h1 (AList.mem_keys.2 h)
    simp [h1, this]

theorem closedMilestones_mem (desired closed : GoMap) (t : String) :
    t ∈ closedMilestones desired closed ↔ t ∈ desired ∧ t ∈ closed := by
  rw [mem_iff_lookup_ne_none, closedMilestones_lookup, mem_iff_lookup_ne_none closed]
  by_cases h : t ∈ desired <;> simp [h]

/-- Every value stored by `createGitlabMilestoneMap` is the conversion of a remote record
of that title. -/
theorem createGitlabMilestoneMap_lookup (api : List gitlabAPI) (t : String) (m : milestone)
    (h : (createGitlabMilestoneMap api).lookup t = some m) :
    ∃ v ∈ api, v.Title = t ∧
      m = { DueDate := v.DueDate, ID := Itoa v.ID, Title := v.Title, State := "" } := by
  unfold createGitlabMilestoneMap at h
  have key : ∀ (l : List gitlabAPI) (acc : GoMap),
      (l.foldl (fun milestones v =>
          let m : milestone :=
            { milestone.zero with DueDate := v.DueDate, ID := Itoa v.ID, Title := v.Title }
          milestones.insert v.Title m) acc).lookup t = some m →
      acc.lookup t = some m ∨ ∃ v ∈ l, v.Title = t ∧
        m = { DueDate := v.DueDate, ID := Itoa v.ID, Title := v.Title, State := "" } := by
    intro l
    induction l with
    | nil => intro acc h; exact Or.inl h
    | cons v l ih =>
      intro acc h
      rw [List.foldl_cons] at h
      rcases ih _ h with h1 | ⟨w, hw, h2⟩
      · by_cases ht : t = v.Title
        · subst ht
          rw [AList.lookup_insert] at h1
          right
          refine ⟨v, List.mem_cons_self _ _, rfl, ?_⟩
          exact (Option.some.inj h1).symm
        · rw [AList.lookup_insert_ne ht] at h1
          exact Or.inl h1
      · exact Or.inr ⟨w, List.mem_cons_of_mem _ hw, h2⟩
  rcases key api ∅ h with h1 | h2
  · exact absurd h1 (by simp [AList.lookup])
  · exact h2

/-! ## Lemmas on the calendar -/

theorem isLeap_iff (y : Int) :
    isLeap y = true ↔ y % 4 = 0 ∧ (y % 100 ≠ 0 ∨ y % 400 = 0) := by
  simp [isLeap]

theorem daysSinceEpoch_decomp (q a b c : Int) (ha0 : 0 ≤ a) (ha : a ≤ 3) (hb0 : 0 ≤ b)
    (hb : b ≤ 24) (hc0 : 0 ≤ c) (hc : c ≤ 3) :
    daysSinceEpoch (400 * q + 100 * a + 4 * b + c + 1)
      = 146097 * q + 36524 * a + 1461 * b + 365 * c := by
  simp only [daysSinceEpoch]
  omega

theorem isLeap_decomp (q a b c : Int) (ha0 : 0 ≤ a) (ha : a ≤ 3) (hb0 : 0 ≤ b)
    (hb : b ≤ 24) (hc0 : 0 ≤ c) (hc : c ≤ 3) :
    isLeap (400 * q + 100 * a + 4 * b + c + 1) = true ↔ c = 3 ∧ (b ≠ 24 ∨ a = 3) := by
  rw [isLeap_iff]
  omega

theorem absYear_decomp (q a b c d : Int) (ha0 : 0 ≤ a) (ha : a ≤ 3) (hb0 : 0 ≤ b)
    (hb : b ≤ 24) (hc0 : 0 ≤ c) (hc : c ≤ 3) (hd0 : 0 ≤ d) (hd : d ≤ 365)
    (hd1 : d = 365 → c = 3 ∧ (b ≠ 24 ∨ a = 3)) :
    absYear (146097 * q + 36524 * a + 1461 * b + 365 * c + d)
      = (400 * q + 100 * a + 4 * b + c + 1, d) := by
  have e1 : (146097 * q + 36524 * a + 1461 * b + 365 * c + d) / 146097 = q := by omega
  have e2 : 146097 * q + 36524 * a + 1461 * b + 365 * c + d - 146097 * q
      = 36524 * a + 1461 * b + 365 * c + d := by omega
  have e3 : (36524 * a + 1461 * b + 365 * c + d) / 36524
      - (36524 * a + 1461 * b + 365 * c + d) / 36524 / 4 = a := by
    obtain ⟨r, hr⟩ : ∃ r, r = 1461 * b + 365 * c + d := ⟨_, rfl⟩
    have hr1 : 0 ≤ r ∧ r ≤ 36524 := by omega
    have hr2 : r = 36524 → a = 3 := by omega
    have e : 36524 * a + 1461 * b + 365 * c + d = 36524 * a + r := by omega
    rw [e]
    clear e hr hd1
    omega
  have e4 : 36524 * a + 1461 * b + 365 * c + d - 36524 * a = 1461 * b + 365 * c + d := by
    omega
  have e5 : (1461 * b + 365 * c + d) / 1461 = b := by omega
  have e6 : 1461 * b + 365 * c + d - 1461 * b = 365 * c + d := by omega
  have e7 : (365 * c + d) / 365 - (365 * c + d) / 365 / 4 = c := by omega
  have e8 : 365 * c + d - 365 * c = d := by omega
  simp only [absYear, e1, e2, e3, e4, e5, e6, e7, e8]

theorem absYear_exists (n : Int) : ∃ q a b c d : Int, 0 ≤ a ∧ a ≤ 3 ∧ 0 ≤ b ∧ b ≤ 24 ∧
    0 ≤ c ∧ c ≤ 3 ∧ 0 ≤ d ∧ d ≤ 365 ∧ (d = 365 → c = 3 ∧ (b ≠ 24 ∨ a = 3)) ∧
    n = 146097 * q + 36524 * a + 1461 * b + 365 * c + d := by
  obtain ⟨d1, hd1, hd1'⟩ : ∃ d1, d1 = n - 146097 * (n / 146097) ∧ 0 ≤ d1 ∧ d1 < 146097 :=
    ⟨_, rfl, by omega⟩
  obtain ⟨a, ha⟩ : ∃ a, a = d1 / 36524 - d1 / 36524 / 4 := ⟨_, rfl⟩
  obtain ⟨d2, hd2⟩ : ∃ d2, d2 = d1 - 36524 * a := ⟨_, rfl⟩
  have ha' : 0 ≤ a ∧ a ≤ 3 ∧ 0 ≤ d2 ∧ d2 ≤ 36524 ∧ (d2 = 36524 → a = 3) := by omega
  obtain ⟨b, hb⟩ : ∃ b, b = d2 / 1461 := ⟨_, rfl⟩
  obtain ⟨d3, hd3⟩ : ∃ d3, d3 = d2 - 1461 * b := ⟨_, rfl⟩
  have hb' : 0 ≤ b ∧ b ≤ 24 ∧ 0 ≤ d3 ∧ d3 ≤ 1460 ∧ (b = 24 → a ≠ 3 → d3 < 1460) := by omega
  obtain ⟨c, hc⟩ : ∃ c, c = d3 / 365 - d3 / 365 / 4 := ⟨_, rfl⟩
  obtain ⟨d4, hd4⟩ : ∃ d4, d4 = d3 - 365 * c := ⟨_, rfl⟩
  have hc' : 0 ≤ c ∧ c ≤ 3 ∧ 0 ≤ d4 ∧ d4 ≤ 365 ∧ (d4 = 365 → c = 3 ∧ d3 = 1460) := by omega
  refine ⟨n / 146097, a, b, c, d4, ha'.1, ha'.2.1, hb'.1, hb'.2.1, hc'.1, hc'.2.1, hc'.2.2.1,
    hc'.2.2.2.1, ?_, by omega⟩
  intro h
  have := hc'.2.2.2.2 h
  refine ⟨this.1, ?_⟩
  by_cases h24 : b = 24
  · right
    by_contra h3
    have := hb'.2.2.2.2 h24 h3
    omega
  · exact Or.inl h24

theorem year_exists (y : Int) : ∃ q a b c : Int, 0 ≤ a ∧ a ≤ 3 ∧ 0 ≤ b ∧ b ≤ 24 ∧
    0 ≤ c ∧ c ≤ 3 ∧ y = 400 * q + 100 * a + 4 * b + c + 1 := by
  refine ⟨(y - 1) / 400, (y - 1) % 400 / 100, (y - 1) % 100 / 4, (y - 1) % 4, ?_⟩
  omega

theorem yearLen_le (y : Int) : 365 ≤ yearLen y ∧ yearLen y ≤ 366 := by
  unfold yearLen; split <;> omega

/-- The year and day of the year of a day determine the day. -/
theorem absYear_spec (n : Int) :
    daysSinceEpoch (absYear n).1 + (absYear n).2 = n ∧ 0 ≤ (absYear n).2 ∧
      (absYear n).2 < yearLen (absYear n).1 := by
  obtain ⟨q, a, b, c, d, ha0, ha, hb0, hb, hc0, hc, hd0, hd, hd1, rfl⟩ := absYear_exists n
  rw [absYear_decomp q a b c d ha0 ha hb0 hb hc0 hc hd0 hd hd1]
  simp only
  rw [daysSinceEpoch_decomp q a b c ha0 ha hb0 hb hc0 hc]
  refine ⟨rfl, hd0, ?_⟩
  unfold yearLen
  by_cases hL : isLeap (400 * q + 100 * a + 4 * b + c + 1) = true
  · rw [if_pos hL]; omega
  · rw [if_neg hL]
    rw [isLeap_decomp q a b c ha0 ha hb0 hb hc0 hc] at hL
    have : d ≠ 365 := fun h => hL (hd1 h)
    omega

/-- The day `d` of the year `y` has year `y` and day of the year `d`. -/
theorem absYear_daysSinceEpoch (y d : Int) (h0 : 0 ≤ d) (h1 : d < yearLen y) :
    absYear (daysSinceEpoch y + d) = (y, d) := by
  obtain ⟨q, a, b, c, ha0, ha, hb0, hb, hc0, hc, rfl⟩ := year_exists y
  rw [daysSinceEpoch_decomp q a b c ha0 ha hb0 hb hc0 hc]
  apply absYear_decomp q a b c d ha0 ha hb0 hb hc0 hc h0
  · have := yearLen_le (400 * q + 100 * a + 4 * b + c + 1); omega
  · intro h
    rw [← isLeap_decomp q a b c ha0 ha hb0 hb hc0 hc]
    unfold yearLen at h1
    by_contra hL
    rw [if_neg hL] at h1
    omega

set_option maxHeartbeats 2000000 in
theorem monthDay_spec (leap : Bool) (y yd : Int) (hy : isLeap y = leap) (h0 : 0 ≤ yd)
    (h1 : yd < (if leap then 366 else 365)) :
    1 ≤ (monthDay y yd).1 ∧ (monthDay y yd).1 ≤ 12 ∧ 1 ≤ (monthDay y yd).2 ∧
      (monthDay y yd).2 ≤ daysIn leap (monthDay y yd).1 ∧
      monthOffset leap (monthDay y yd).1 + (monthDay y yd).2 - 1 = yd := by
  unfold monthDay
  rw [hy]
  cases leap
  · simp only [Bool.false_and, Bool.false_eq_true, if_false] at h1 ⊢
    have hq : 0 ≤ yd / 31 ∧ yd / 31 ≤ 11 := by omega
    obtain ⟨q, hq'⟩ : ∃ q, q = yd / 31 := ⟨_, rfl⟩
    rw [← hq'] at hq ⊢
    obtain ⟨hq0, hq1⟩ := hq
    interval_cases q <;> simp [daysBefore, daysIn, monthOffset] <;> split <;> simp <;> omega
  · simp only [Bool.true_and, if_true] at h1 ⊢
    by_cases h59 : yd = 59
    · subst h59; simp [daysIn, monthOffset, daysBefore]
    · have h59' : (yd == 31 + 29 - 1) = false := by simpa using h59
      simp only [h59', Bool.false_eq_true, if_false]
      by_cases hgt : yd > 31 + 29 - 1
      · simp only [hgt, decide_True, if_true]
        have hq : 1 ≤ (yd - 1) / 31 ∧ (yd - 1) / 31 ≤ 11 := by omega
        obtain ⟨q, hq'⟩ : ∃ q, q = (yd - 1) / 31 := ⟨_, rfl⟩
        rw [← hq'] at hq ⊢
        obtain ⟨hq0, hq1⟩ := hq
        interval_cases q <;> simp [daysBefore, daysIn, monthOffset] <;> split <;> simp <;> omega
      · simp only [hgt, decide_False, Bool.false_eq_true, if_false]
        have hq : 0 ≤ yd / 31 ∧ yd / 31 ≤ 1 := by omega
        obtain ⟨q, hq'⟩ : ∃ q, q = yd / 31 := ⟨_, rfl⟩
        rw [← hq'] at hq ⊢
        obtain ⟨hq0, hq1⟩ := hq
        interval_cases q <;> simp [daysBefore, daysIn, monthOffset] <;> split <;> simp <;> omega

theorem monthOffset_range (leap : Bool) (m dd : Int) (hm0 : 1 ≤ m) (hm : m ≤ 12)
    (hd0 : 1 ≤ dd) (hd : dd ≤ daysIn leap m) :
    0 ≤ monthOffset leap m + dd - 1 ∧
      monthOffset leap m + dd - 1 < (if leap then 366 else 365) := by
  cases leap <;> interval_cases m <;>
    simp [daysIn, monthOffset, daysBefore] at hd ⊢ <;> omega

set_option maxHeartbeats 4000000 in
theorem monthOffset_inj (leap : Bool) (m m2 dd dd2 : Int) (hm0 : 1 ≤ m) (hm : m ≤ 12)
    (hd0 : 1 ≤ dd) (hd : dd ≤ daysIn leap m) (hn0 : 1 ≤ m2) (hn : m2 ≤ 12)
    (he0 : 1 ≤ dd2) (he : dd2 ≤ daysIn leap m2)
    (h : monthOffset leap m + dd = monthOffset leap m2 + dd2) : m = m2 ∧ dd = dd2 := by
  cases leap <;> interval_cases m <;> interval_cases m2 <;>
    simp [daysIn, monthOffset, daysBefore] at hd he h ⊢ <;> omega

/-- Day `dd` of month `m` is found again from its day of the year. -/
theorem monthDay_monthOffset (leap : Bool) (y m dd : Int) (hy : isLeap y = leap)
    (hm0 : 1 ≤ m) (hm : m ≤ 12) (hd0 : 1 ≤ dd) (hd : dd ≤ daysIn leap m) :
    monthDay y (monthOffset leap m + dd - 1) = (m, dd) := by
  have hr := monthOffset_range leap m dd hm0 hm hd0 hd
  have hs := monthDay_spec leap y (monthOffset leap m + dd - 1) hy hr.1 hr.2
  obtain ⟨h1, h2, h3, h4, h5⟩ := hs
  have := monthOffset_inj leap _ m _ dd h1 h2 h3 h4 hm0 hm hd0 hd (by omega)
  exact Prod.ext this.1 this.2

theorem daysSinceEpoch_succ (y : Int) :
    daysSinceEpoch (y + 1) = daysSinceEpoch y + yearLen y := by
  unfold yearLen
  by_cases hL : isLeap y = true
  · rw [if_pos hL]
    rw [isLeap_iff] at hL
    simp only [daysSinceEpoch]
    omega
  · rw [if_neg hL]
    rw [isLeap_iff] at hL
    simp only [daysSinceEpoch]
    omega

theorem monthOffset_succ (leap : Bool) (m : Int) (hm0 : 1 ≤ m) (hm : m ≤ 11) :
    monthOffset leap (m + 1) = monthOffset leap m + daysIn leap m := by
  cases leap <;> interval_cases m <;> simp [daysIn, monthOffset, daysBefore]

theorem monthOffset_twelve (y : Int) :
    monthOffset (isLeap y) 12 + daysIn (isLeap y) 12 = yearLen y := by
  unfold yearLen
  cases isLeap y <;> simp [daysIn, monthOffset, daysBefore]

theorem monthOffset_one (leap : Bool) : monthOffset leap 1 = 0 := by
  cases leap <;> simp [monthOffset, daysBefore]

theorem daysIn_pos (leap : Bool) (m : Int) : 28 ≤ daysIn leap m ∧ daysIn leap m ≤ 31 := by
  unfold daysIn
  cases leap <;> split <;> (try split) <;> simp

/-- The day number computed by `Date` when the month needs no normalisation. -/
theorem Date_abs (y m d : Int) (hm0 : 1 ≤ m) (hm : m ≤ 12) :
    (Date y m d).abs = daysSinceEpoch y + monthOffset (isLeap y) m + (d - 1) := by
  have h1 : ¬ (m - 1 < 0) := by omega
  have h2 : ¬ (m - 1 ≥ 12) := by omega
  simp only [Date, norm, h1, h2, if_false, monthOffset]
  have e : m - 1 + 1 = m := by omega
  rw [e]
  by_cases h : (isLeap y && decide (m ≥ 3)) = true
  · rw [if_pos h, if_pos h]; omega
  · rw [if_neg h, if_neg h]; omega

/-- Month 13 is January of the following year. -/
theorem Date_thirteen (y d : Int) : Date y 13 d = Date (y + 1) 1 d := by
  simp [Date, norm]

/-- The date fields of a day are in range and determine the day. -/
theorem Time.fields_valid (t : Time) :
    1 ≤ t.Month ∧ t.Month ≤ 12 ∧ 1 ≤ t.Day ∧ t.Day ≤ daysIn (isLeap t.Year) t.Month ∧
      daysSinceEpoch t.Year + monthOffset (isLeap t.Year) t.Month + (t.Day - 1) = t.abs := by
  have h := absYear_spec t.abs
  have hm := monthDay_spec (isLeap t.Year) t.Year t.yday rfl h.2.1
    (by have := h.2.2; unfold yearLen at this; exact this)
  refine ⟨hm.1, hm.2.1, hm.2.2.1, hm.2.2.2.1, ?_⟩
  have h5 := hm.2.2.2.2
  have h1 := h.1
  simp only [Time.Year, Time.yday, Time.Month, Time.Day] at h5 h1 ⊢
  omega

/-- `Date` applied to the date fields of a day gives the day back. -/
theorem Date_roundtrip (t : Time) : Date t.Year t.Month t.Day = t := by
  have h := t.fields_valid
  have e := Date_abs t.Year t.Month t.Day h.1 h.2.1
  cases t with
  | mk a =>
    cases hD : Date (Time.mk a).Year (Time.mk a).Month (Time.mk a).Day with
    | mk b =>
      rw [hD] at e
      simp only at e
      rw [e, h.2.2.2.2]

/-- The date fields of `Date y m d` for a day `d` that exists in month `m` of year `y`. -/
theorem Date_fields (y m d : Int) (hm0 : 1 ≤ m) (hm : m ≤ 12) (hd0 : 1 ≤ d)
    (hd : d ≤ daysIn (isLeap y) m) :
    (Date y m d).Year = y ∧ (Date y m d).Month = m ∧ (Date y m d).Day = d := by
  have e := Date_abs y m d hm0 hm
  have hr := monthOffset_range (isLeap y) m d hm0 hm hd0 hd
  have hy : absYear (Date y m d).abs = (y, monthOffset (isLeap y) m + d - 1) := by
    rw [e]
    have e2 : daysSinceEpoch y + monthOffset (isLeap y) m + (d - 1)
        = daysSinceEpoch y + (monthOffset (isLeap y) m + d - 1) := by omega
    rw [e2]
    apply absYear_daysSinceEpoch _ _ hr.1
    unfold yearLen
    exact hr.2
  have hmd := monthDay_monthOffset (isLeap y) y m d rfl hm0 hm hd0 hd
  simp only [Time.Year, Time.yday, Time.Month, Time.Day, hy, hmd, and_self]

/-- Adding days with `AddDate` adds them to the day number. -/
theorem AddDate_days (t : Time) (k : Int) : t.AddDate 0 0 k = ⟨t.abs + k⟩ := by
  have h := t.fields_valid
  have e := Date_abs t.Year t.Month (t.Day + k) h.1 h.2.1
  unfold Time.AddDate
  simp only [add_zero]
  cases hD : Date t.Year t.Month (t.Day + k) with
  | mk b =>
    rw [hD] at e
    simp only at e
    have := h.2.2.2.2
    congr 1
    omega

/-- The day computed by `lastDayMonth` is the last day of the month. -/
theorem lastDayMonth_eq (y m : Int) (hm0 : 1 ≤ m) (hm : m ≤ 12) :
    lastDayMonth y m = Date y m (daysIn (isLeap y) m) := by
  have e2 := Date_abs y m (daysIn (isLeap y) m) hm0 hm
  unfold lastDayMonth
  by_cases h12 : m = 12
  · subst h12
    have e1 := Date_abs (y + 1) 1 0 (by omega) (by omega)
    have e3 := daysSinceEpoch_succ y
    have e4 := monthOffset_twelve y
    have e5 := monthOffset_one (isLeap (y + 1))
    have e6 : (12 : Int) + 1 = 13 := by norm_num
    rw [e6, Date_thirteen]
    cases hA : Date (y + 1) 1 0 with
    | mk a =>
      cases hB : Date y 12 (daysIn (isLeap y) 12) with
      | mk b =>
        rw [hA] at e1
        rw [hB] at e2
        simp only at e1 e2
        congr 1
        omega
  · have e1 := Date_abs y (m + 1) 0 (by omega) (by omega)
    have e3 := monthOffset_succ (isLeap y) m hm0 (by omega)
    cases hA : Date y (m + 1) 0 with
    | mk a =>
      cases hB : Date y m (daysIn (isLeap y) m) with
      | mk b =>
        rw [hA] at e1
        rw [hB] at e2
        simp only at e1 e2
        congr 1
        omega

/-- The first day of the month after month `m` of year `y`. -/
theorem Date_next_month (y m : Int) (hm0 : 1 ≤ m) (hm : m ≤ 12) :
    (Date (if m = 12 then y + 1 else y) (if m = 12 then 1 else m + 1) 1).abs
      = (Date y m (daysIn (isLeap y) m)).abs + 1 := by
  rw [← lastDayMonth_eq y m hm0 hm]
  unfold lastDayMonth
  by_cases h12 : m = 12
  · subst h12
    have e6 : (12 : Int) + 1 = 13 := by norm_num
    simp only [if_true, e6, Date_thirteen]
    rw [Date_abs _ _ _ (by omega) (by omega), Date_abs _ _ _ (by omega) (by omega)]
    omega
  · simp only [h12, if_false]
    rw [Date_abs _ _ _ (by omega) (by omega), Date_abs _ _ _ (by omega) (by omega)]
    omega

/-! ## Lemmas on decimal formatting -/

theorem digitVal_digitChar (d : Nat) (h : d < 10) : digitVal (digitChar d) = d := by
  interval_cases d <;> rfl

theorem digitChar_ne_minus (d : Nat) : digitChar d ≠ '-' := by
  unfold digitChar
  split <;> decide

theorem digitsVal_natDigits (f n a : Nat) :
    digitsVal a (natDigits (f + 1) n) = (if n < 10 then 10 * a + n else
      10 * digitsVal a (natDigits f (n / 10)) + n % 10) := by
  rw [natDigits]
  by_cases h10 : n < 10
  · simp [h10, digitsVal, digitVal_digitChar n h10]
  · simp only [h10, if_false, digitsVal, List.foldl_append, List.foldl_cons, List.foldl_nil]
    rw [digitVal_digitChar _ (Nat.mod_lt _ (by norm_num))]

/-- Reading the digits written by `natDigits` gives the number back. -/
theorem digitsVal_natDigits_zero (fuel n : Nat) (h : n < fuel) :
    digitsVal 0 (natDigits fuel n) = n := by
  induction fuel generalizing n with
  | zero => omega
  | succ f ih =>
    rw [digitsVal_natDigits]
    by_cases h10 : n < 10
    · simp [h10]
    · simp only [h10, if_false]
      rw [ih (n / 10) (by omega)]
      omega

theorem natDigits_ne_minus (fuel n : Nat) : ∀ c ∈ natDigits fuel n, c ≠ '-' := by
  induction fuel generalizing n with
  | zero => simp [natDigits]
  | succ f ih =>
    unfold natDigits
    by_cases h10 : n < 10
    · simp only [h10, if_true, List.mem_singleton]
      intro c hc; rw [hc]; exact digitChar_ne_minus n
    · simp only [h10, if_false, List.mem_append, List.mem_singleton]
      intro c hc
      rcases hc with hc | hc
      · exact ih _ c hc
      · rw [hc]; exact digitChar_ne_minus _

theorem natDigits_ne_nil (n : Nat) : natDigits (n + 1) n ≠ [] := by
  unfold natDigits
  split <;> simp

theorem digitsVal_replicate_zero (k : Nat) (cs : List Char) :
    digitsVal 0 (List.replicate k '0' ++ cs) = digitsVal 0 cs := by
  induction k with
  | zero => simp
  | succ k ih =>
    rw [List.replicate_succ, List.cons_append]
    unfold digitsVal at ih ⊢
    rw [List.foldl_cons]
    have : 10 * 0 + digitVal '0' = 0 := by decide
    rw [this]
    exact ih

theorem digitsVal_padded (u width : Nat) : digitsVal 0 (padded u width) = u := by
  unfold padded
  rw [digitsVal_replicate_zero, digitsVal_natDigits_zero _ _ (Nat.lt_succ_self u)]

theorem padded_ne_minus (u width : Nat) : ∀ c ∈ padded u width, c ≠ '-' := by
  intro c hc
  unfold padded at hc
  rcases List.mem_append.1 hc with h | h
  · rw [(List.mem_replicate.1 h).2]; decide
  · exact natDigits_ne_minus _ _ c h

theorem padded_ne_nil (u width : Nat) : padded u width ≠ [] := by
  unfold padded
  intro h
  exact natDigits_ne_nil u (List.append_eq_nil.1 h).2

theorem appendInt_eq (x : Int) (width : Nat) :
    appendInt x width = (if x < 0 then '-' :: padded x.natAbs width else padded x.natAbs width) := by
  unfold appendInt padded
  split <;> simp

/-- `appendInt` is injective in the number. -/
theorem appendInt_injective (x y : Int) (width : Nat)
    (h : appendInt x width = appendInt y width) : x = y := by
  rw [appendInt_eq, appendInt_eq] at h
  by_cases hx : x < 0 <;> by_cases hy : y < 0
  · simp only [hx, hy, if_true, List.cons.injEq, true_and] at h
    have := congrArg (digitsVal 0) h
    rw [digitsVal_padded, digitsVal_padded] at this
    omega
  · simp only [hx, hy, if_true, if_false] at h
    exfalso
    cases hp : padded y.natAbs width with
    | nil => exact padded_ne_nil _ _ hp
    | cons c cs =>
      rw [hp] at h
      have hc : c ∈ padded y.natAbs width := by rw [hp]; exact List.mem_cons_self _ _
      exact padded_ne_minus _ _ c hc (List.cons.inj h).1.symm
  · simp only [hx, hy, if_true, if_false] at h
    exfalso
    cases hp : padded x.natAbs width with
    | nil => exact padded_ne_nil _ _ hp
    | cons c cs =>
      rw [hp] at h
      have hc : c ∈ padded x.natAbs width := by rw [hp]; exact List.mem_cons_self _ _
      exact padded_ne_minus _ _ c hc (List.cons.inj h).1
  · simp only [hx, hy, if_false] at h
    have := congrArg (digitsVal 0) h
    rw [digitsVal_padded, digitsVal_padded] at this
    omega

/-- A number from 0 to 99 is written with exactly two digits by `appendInt _ 2`. -/
theorem appendInt_two_length (x : Int) (h0 : 0 ≤ x) (h : x ≤ 99) :
    (appendInt x 2).length = 2 := by
  interval_cases x <;> rfl

/-- The layout `2006-01-02` determines the date fields. -/
theorem Format_fields_injective (s t : Time)
    (h : s.Format_2006_01_02 = t.Format_2006_01_02) :
    s.Year = t.Year ∧ s.Month = t.Month ∧ s.Day = t.Day := by
  unfold Time.Format_2006_01_02 at h
  have hl := congrArg String.data h
  simp only at hl
  have hs := s.fields_valid
  have ht := t.fields_valid
  have b1 := daysIn_pos (isLeap s.Year) s.Month
  have b2 := daysIn_pos (isLeap t.Year) t.Month
  have l1 := appendInt_two_length s.Month (by omega) (by omega)
  have l2 := appendInt_two_length t.Month (by omega) (by omega)
  have l3 := appendInt_two_length s.Day (by omega) (by omega)
  have l4 := appendInt_two_length t.Day (by omega) (by omega)
  have h1 := List.append_inj' hl (by simp only [List.length_cons, l3, l4])
  have h2 := List.append_inj' h1.1 (by simp only [List.length_cons, l1, l2])
  exact ⟨appendInt_injective _ _ _ h2.1, appendInt_injective _ _ _ (List.cons.inj h2.2).2,
    appendInt_injective _ _ _ (List.cons.inj h1.2).2⟩

/-- The layout `2006-01-02` determines the day. -/
theorem Format_injective (s t : Time) (h : s.Format_2006_01_02 = t.Format_2006_01_02) :
    s = t := by
  have hf := Format_fields_injective s t h
  rw [← Date_roundtrip s, ← Date_roundtrip t, hf.1, hf.2.1, hf.2.2]

/-! ## Lemmas on the weekly loop -/

theorem sundayGap_range (t : Time) : 0 ≤ sundayGap t ∧ sundayGap t ≤ 6 := by
  unfold sundayGap; omega

theorem sundayGap_zero_iff (t : Time) : sundayGap t = 0 ↔ t.Weekday = Sunday := by
  unfold sundayGap Time.Weekday Sunday; omega

theorem sundayGap_succ (t : Time) (h : t.Weekday ≠ Sunday) :
    sundayGap ⟨t.abs + 1⟩ = sundayGap t - 1 := by
  unfold sundayGap Time.Weekday Sunday at *; simp only at *; omega

theorem lastDayWeekLoop_eq (fuel : Nat) (t : Time) (h : sundayGap t ≤ fuel) :
    lastDayWeekLoop fuel t = some ⟨t.abs + sundayGap t⟩ := by
  induction fuel generalizing t with
  | zero =>
    have h0 : sundayGap t = 0 := by have := sundayGap_range t; omega
    have hw := (sundayGap_zero_iff t).1 h0
    simp [lastDayWeekLoop, hw, h0]
  | succ f ih =>
    unfold lastDayWeekLoop
    by_cases hw : t.Weekday = Sunday
    · have h0 := (sundayGap_zero_iff t).2 hw
      simp [hw, h0]
    · rw [if_pos hw, AddDate_days, ih]
      · rw [sundayGap_succ t hw]
        simp only [Option.some.injEq, Time.mk.injEq]
        omega
      · rw [sundayGap_succ t hw]
        push_cast at h
        omega

/-- With fuel for six steps `lastDayWeek` returns the first Sunday at or after its argument. -/
theorem lastDayWeek_eq (fuel : Nat) (t : Time) (h : 6 ≤ fuel) :
    lastDayWeek fuel t = some ⟨t.abs + sundayGap t⟩ := by
  unfold lastDayWeek
  by_cases hw : t.Weekday = Sunday
  · have h0 := (sundayGap_zero_iff t).2 hw
    simp [hw, h0]
  · rw [if_pos hw]
    apply lastDayWeekLoop_eq
    have := sundayGap_range t
    have : (6 : Int) ≤ fuel := by exact_mod_cast h
    omega

theorem sundayGap_add_seven (t : Time) (k : Int) :
    sundayGap ⟨t.abs + sundayGap t + 7 * k⟩ = 0 := by
  unfold sundayGap Time.Weekday; simp only; omega

/-- The weekly loop stores the milestones of the Sundays `S`, `S + 7`, ... -/
theorem weeklyMilestones_eq (fuel : Nat) (h : 6 ≤ fuel) (n : Nat) (today : Time) :
    weeklyMilestones fuel n today = some ((List.range n).map
      (fun (i : Nat) => weeklyMilestone ⟨today.abs + sundayGap today + 7 * (i : Int)⟩)) := by
  induction n generalizing today with
  | zero => simp [weeklyMilestones]
  | succ n ih =>
    unfold weeklyMilestones
    rw [lastDayWeek_eq fuel today h]
    simp only
    rw [AddDate_days, ih]
    simp only [Option.some.injEq]
    rw [List.range_succ_eq_map, List.map_cons, List.map_map]
    congr 1
    · simp [weeklyMilestone, milestone.zero]
    · apply List.map_congr_left
      intro i _
      simp only [Function.comp]
      have h7 := sundayGap_add_seven today 1
      simp only [mul_one] at h7
      rw [h7]
      congr 2
      push_cast
      omega

/-- A Sunday and the days of the six days before it have the same ISO year and week. -/
theorem ISOWeek_sunday (t : Time) :
    (⟨t.abs + sundayGap t⟩ : Time).ISOWeek = t.ISOWeek := by
  have hr := sundayGap_range t
  have hT : t.abs + sundayGap t +
        (if (Thursday - (⟨t.abs + sundayGap t⟩ : Time).Weekday == 4) = true then (-3 : Int)
          else Thursday - (⟨t.abs + sundayGap t⟩ : Time).Weekday)
      = t.abs +
        (if (Thursday - t.Weekday == 4) = true then (-3 : Int) else Thursday - t.Weekday) := by
    unfold sundayGap Time.Weekday Thursday at *
    simp only [beq_iff_eq] at *
    split <;> split <;> omega
  unfold Time.ISOWeek
  simp only
  rw [hT]

theorem ISOWeek_range (t : Time) : 1 ≤ t.ISOWeek.2 ∧ t.ISOWeek.2 ≤ 53 := by
  unfold Time.ISOWeek
  simp only
  have h := absYear_spec (t.abs + if (Thursday - t.Weekday == 4) = true then -3
    else Thursday - t.Weekday)
  have hl := yearLen_le (absYear (t.abs + if (Thursday - t.Weekday == 4) = true then -3
    else Thursday - t.Weekday)).1
  omega

theorem Itoa_week_length (w : Int) (h0 : 1 ≤ w) (h : w ≤ 53) :
    (Itoa w).length = if w ≤ 9 then 1 else 2 := by
  interval_cases w <;> rfl

/-! ## Lemmas on the stored maps -/

theorem storeAll_snoc (ms : List milestone) (m : milestone) :
    storeAll (ms ++ [m]) = (storeAll ms).insert m.Title m := by
  simp [storeAll, List.foldl_append]

theorem dailyMilestone_eq (today : Time) (i : Nat) :
    dailyMilestone today i
      = { DueDate := (⟨today.abs + i⟩ : Time).Format_2006_01_02, ID := "",
          Title := (⟨today.abs + i⟩ : Time).Format_2006_01_02, State := "" } := by
  simp [dailyMilestone, AddDate_days, milestone.zero]

theorem daily_succ (today : Time) (n : Nat) :
    storeAll ((List.range (n + 1)).map (dailyMilestone today))
      = (storeAll ((List.range n).map (dailyMilestone today))).insert
          (⟨today.abs + n⟩ : Time).Format_2006_01_02 (dailyMilestone today n) := by
  rw [List.range_succ, List.map_append, List.map_singleton, storeAll_snoc, dailyMilestone_eq]

theorem daily_mem (today : Time) (n : Nat) (t : String) :
    t ∈ storeAll ((List.range n).map (dailyMilestone today))
      ↔ ∃ i : Nat, i < n ∧ t = (⟨today.abs + i⟩ : Time).Format_2006_01_02 := by
  induction n with
  | zero => simp [storeAll]
  | succ n ih =>
    rw [daily_succ, AList.mem_insert, ih]
    constructor
    · rintro (h | ⟨i, hi, h⟩)
      · exact ⟨n, Nat.lt_succ_self n, h⟩
      · exact ⟨i, Nat.lt_succ_of_lt hi, h⟩
    · rintro ⟨i, hi, h⟩
      by_cases hin : i = n
      · subst hin; exact Or.inl h
      · exact Or.inr ⟨i, by omega, h⟩

theorem daily_lookup (today : Time) (n : Nat) (t : String) (m : milestone)
    (h : (storeAll ((List.range n).map (dailyMilestone today))).lookup t = some m) :
    m.Title = t ∧ m.DueDate = t := by
  induction n with
  | zero => simp [storeAll] at h
  | succ n ih =>
    rw [daily_succ] at h
    by_cases ht : t = (⟨today.abs + n⟩ : Time).Format_2006_01_02
    · subst ht
      rw [AList.lookup_insert] at h
      have := Option.some.inj h
      rw [← this, dailyMilestone_eq]
      exact ⟨rfl, rfl⟩
    · rw [AList.lookup_insert_ne ht] at h
      exact ih h

theorem daily_length (today : Time) (n : Nat) :
    (storeAll ((List.range n).map (dailyMilestone today))).entries.length = n := by
  induction n with
  | zero => simp [storeAll]
  | succ n ih =>
    rw [daily_succ]
    have hnot : (⟨today.abs + n⟩ : Time).Format_2006_01_02
        ∉ storeAll ((List.range n).map (dailyMilestone today)) := by
      rw [daily_mem]
      rintro ⟨i, hi, h⟩
      have := Format_injective _ _ h
      simp only [Time.mk.injEq] at this
      omega
    rw [AList.insert_entries_of_neg hnot, List.length_cons, ih]

/-! ## Lemmas on pagination -/

/-- On a chain of pages the loop of `paginate` ends without error and appends the
bodies of the pages, in order, to what `apiData` held before. -/
theorem paginateLoop_chain (remote : Remote) (token : String) (bodies : List Bytes) :
    ∀ (URL : String) (apiData : List Bytes) (k : Nat),
      servesChain remote token URL bodies →
      paginateLoop remote token (bodies.length + k) URL apiData
        = some (.ok (apiData ++ bodies)) := by
  induction bodies with
  | nil => intro URL apiData k h; exact absurd h (by simp [servesChain])
  | cons b rest ih =>
    intro URL apiData k h
    have hlen : (b :: rest).length + k = (rest.length + k) + 1 := by
      simp only [List.length_cons]; omega
    rw [hlen]
    cases rest with
    | nil =>
      obtain ⟨links, h1, h2⟩ := h
      cases hn : nextPage links URL with
      | mk u p =>
        rw [hn] at h2
        simp only at h2
        subst h2
        simp [paginateLoop, h1, hn]
    | cons b2 rest =>
      obtain ⟨links, h1, h2, h3⟩ := h
      cases hn : nextPage links URL with
      | mk u p =>
        rw [hn] at h2 h3
        simp only at h2 h3
        subst h2
        have := ih u (apiData ++ [b]) k h3
        rw [paginateLoop, h1]
        simp only [hn, if_true]
        rw [this, List.append_assoc, List.singleton_append]

/-- On a chain of `k` pages `paginate` returns `k + 1` payloads: the nil slice that
`make([][]byte, 1)` put first, then the bodies. -/
theorem paginate_chain (remote : Remote) (token URL : String) (bodies : List Bytes)
    (k : Nat) (h : servesChain remote token URL bodies) :
    paginate remote (bodies.length + k) URL token = some (.ok ([] :: bodies)) := by
  unfold paginate
  rw [paginateLoop_chain remote token bodies URL [[]] k h]
  rfl

/-! ## Lemmas on locations without zone transitions -/

theorem lookup_fixed (l : Zone.Location) (h : l.tx = []) (sec : Int) :
    l.lookup sec = (l.first, Zone.alpha, Zone.omega) := by
  unfold Zone.Location.lookup
  rw [h]
  rfl

theorem abs_fixed (t : Zone.Time) (h : t.loc.tx = []) :
    t.abs = t.unix + t.loc.first + Zone.unixToInternal := by
  unfold Zone.Time.abs
  rw [lookup_fixed _ h]

theorem norm_in_range (hi lo base : Int) (h0 : 0 ≤ lo) (h1 : lo < base) :
    norm hi lo base = (hi, lo) := by
  have a : ¬ lo < 0 := by omega
  have b : ¬ lo ≥ base := by omega
  simp [norm, a, b]

/-- In a location without transitions `Date` is the day of the calendar-day model at
the given time of day, shifted by the fixed offset. -/
theorem zone_Date_fixed (y m d hour min sec : Int) (loc : Zone.Location) (h : loc.tx = [])
    (hh0 : 0 ≤ hour) (hh : hour < 24) (hm0 : 0 ≤ min) (hm : min < 60)
    (hs0 : 0 ≤ sec) (hs : sec < 60) :
    Zone.Date y m d hour min sec loc
      = ⟨(Date y m d).abs * 86400 + (hour * 3600 + min * 60 + sec)
          - Zone.unixToInternal - loc.first, loc⟩ := by
  unfold Zone.Date Date
  simp only [norm_in_range _ _ _ hs0 hs, norm_in_range _ _ _ hm0 hm,
    norm_in_range _ _ _ hh0 hh, lookup_fixed loc h]
  by_cases h0 : loc.first = 0
  · simp [h0]
  · simp [h0]

theorem zone_Clock_range (t : Zone.Time) :
    0 ≤ t.Clock.1 ∧ t.Clock.1 < 24 ∧ 0 ≤ t.Clock.2.1 ∧ t.Clock.2.1 < 60 ∧
      0 ≤ t.Clock.2.2 ∧ t.Clock.2.2 < 60 ∧
      t.Clock.1 * 3600 + t.Clock.2.1 * 60 + t.Clock.2.2 = t.abs % 86400 := by
  unfold Zone.Time.Clock
  simp only
  omega

/-- In a location without transitions `AddDate(0, 0, k)` adds `k` times 24 hours. -/
theorem addDate_days_fixed (t : Zone.Time) (h : t.loc.tx = []) (k : Int) :
    t.AddDate 0 0 k = ⟨t.unix + 86400 * k, t.loc⟩ := by
  have hc := zone_Clock_range t
  have hd := AddDate_days ⟨t.abs / 86400⟩ k
  unfold Time.AddDate at hd
  have hd2 : (Date (t.Year + 0) (t.Month + 0) (t.Day + k)).abs = t.abs / 86400 + k := by
    have := congrArg Time.abs hd
    exact this
  unfold Zone.Time.AddDate
  simp only
  rw [zone_Date_fixed _ _ _ _ _ _ _ h hc.1 hc.2.1 hc.2.2.1 hc.2.2.2.1 hc.2.2.2.2.1
    hc.2.2.2.2.2.1, hd2, hc.2.2.2.2.2.2]
  have ha := abs_fixed t h
  congr 1
  omega

theorem zone_Weekday_eq (t : Zone.Time) :
    t.Weekday = (⟨t.day⟩ : Time).Weekday := by
  unfold Zone.Time.Weekday Time.Weekday Zone.Time.day
  simp only
  omega

theorem zone_ISOWeek_eq (t : Zone.Time) :
    t.ISOWeek = (⟨t.day⟩ : Time).ISOWeek := by
  unfold Zone.Time.ISOWeek Time.ISOWeek
  rw [zone_Weekday_eq]
  simp only [Zone.Time.day]
  have e : ∀ d : Int, (t.abs + d * 86400) / 86400 = t.abs / 86400 + d := by
    intro d; omega
  rw [e]

theorem zone_Format_eq (t : Zone.Time) :
    t.Format_2006_01_02 = (⟨t.day⟩ : Time).Format_2006_01_02 := rfl

theorem zone_day_shift (t : Zone.Time) (h : t.loc.tx = []) (k : Int) :
    (⟨t.unix + 86400 * k, t.loc⟩ : Zone.Time).day = t.day + k := by
  have h2 : (⟨t.unix + 86400 * k, t.loc⟩ : Zone.Time).loc.tx = [] := h
  unfold Zone.Time.day
  rw [abs_fixed _ h2, abs_fixed t h]
  simp only
  omega

theorem zone_lastDayWeekLoop_eq (fuel : Nat) (t : Zone.Time) (h : t.loc.tx = [])
    (hf : sundayGap ⟨t.day⟩ ≤ fuel) :
    Zone.lastDayWeekLoop fuel t = some ⟨t.unix + 86400 * sundayGap ⟨t.day⟩, t.loc⟩ := by
  induction fuel generalizing t with
  | zero =>
    have h0 : sundayGap ⟨t.day⟩ = 0 := by have := sundayGap_range ⟨t.day⟩; omega
    have hw := (sundayGap_zero_iff ⟨t.day⟩).1 h0
    rw [← zone_Weekday_eq] at hw
    simp [Zone.lastDayWeekLoop, hw, h0]
  | succ f ih =>
    unfold Zone.lastDayWeekLoop
    by_cases hw : t.Weekday = Sunday
    · have h0 := (sundayGap_zero_iff ⟨t.day⟩).2 (by rw [← zone_Weekday_eq]; exact hw)
      simp [hw, h0]
    · have hw2 : (⟨t.day⟩ : Time).Weekday ≠ Sunday := by rw [← zone_Weekday_eq]; exact hw
      have hs := sundayGap_succ ⟨t.day⟩ hw2
      simp only at hs
      have hday : (⟨t.unix + 86400 * 1, t.loc⟩ : Zone.Time).day = t.day + 1 :=
        zone_day_shift t h 1
      rw [if_pos hw, addDate_days_fixed t h, ih ⟨t.unix + 86400 * 1, t.loc⟩ h]
      · rw [hday, hs]
        simp only [Option.some.injEq, Zone.Time.mk.injEq, and_true]
        omega
      · rw [hday, hs]
        push_cast at hf
        omega

/-- In a location without transitions and with fuel for six steps `lastDayWeek` returns
the same time of day on the first Sunday at or after its argument. -/
theorem zone_lastDayWeek_eq (fuel : Nat) (t : Zone.Time) (h : t.loc.tx = [])
    (hf : 6 ≤ fuel) :
    Zone.lastDayWeek fuel t = some ⟨t.unix + 86400 * sundayGap ⟨t.day⟩, t.loc⟩ := by
  unfold Zone.lastDayWeek
  by_cases hw : t.Weekday = Sunday
  · have h0 := (sundayGap_zero_iff ⟨t.day⟩).2 (by rw [← zone_Weekday_eq]; exact hw)
    simp [hw, h0]
  · rw [if_pos hw]
    apply zone_lastDayWeekLoop_eq _ _ h
    have := sundayGap_range ⟨t.day⟩
    have : (6 : Int) ≤ fuel := by exact_mod_cast hf
    omega

theorem zone_weeklyMilestones_eq (fuel : Nat) (hf : 6 ≤ fuel) (n : Nat) (today : Zone.Time)
    (h : today.loc.tx = []) :
    Zone.weeklyMilestones fuel n today = some ((List.range n).map
      (fun (i : Nat) => weeklyMilestone ⟨today.day + sundayGap ⟨today.day⟩ + 7 * (i : Int)⟩)) := by
  induction n generalizing today with
  | zero => simp [Zone.weeklyMilestones]
  | succ n ih =>
    unfold Zone.weeklyMilestones
    rw [zone_lastDayWeek_eq fuel today h hf]
    simp only
    have h2 : (⟨today.unix + 86400 * sundayGap ⟨today.day⟩, today.loc⟩ : Zone.Time).loc.tx = [] := h
    rw [addDate_days_fixed _ h2]
    have h3 : (⟨today.unix + 86400 * sundayGap ⟨today.day⟩ + 86400 * 7, today.loc⟩
        : Zone.Time).loc.tx = [] := h
    rw [ih ⟨today.unix + 86400 * sundayGap ⟨today.day⟩ + 86400 * 7, today.loc⟩ h3]
    simp only [Option.some.injEq]
    rw [List.range_succ_eq_map, List.map_cons, List.map_map]
    have e1 : (⟨today.unix + 86400 * sundayGap ⟨today.day⟩, today.loc⟩ : Zone.Time).day
        = today.day + sundayGap ⟨today.day⟩ := zone_day_shift today h _
    have e2 : (⟨today.unix + 86400 * sundayGap ⟨today.day⟩ + 86400 * 7, today.loc⟩
        : Zone.Time).day = today.day + sundayGap ⟨today.day⟩ + 7 := by
      have := zone_day_shift today h (sundayGap ⟨today.day⟩ + 7)
      have hu : today.unix + 86400 * sundayGap ⟨today.day⟩ + 86400 * 7
          = today.unix + 86400 * (sundayGap ⟨today.day⟩ + 7) := by omega
      rw [hu, this]
      omega
    congr 1
    · simp only [weeklyMilestone, milestone.zero, zone_ISOWeek_eq, zone_Format_eq, e1,
        Nat.cast_zero, mul_zero, add_zero]
    · apply List.map_congr_left
      intro i _
      simp only [Function.comp, e2]
      have h7 := sundayGap_add_seven ⟨today.day⟩ 1
      simp only [mul_one] at h7
      rw [h7]
      congr 2
      push_cast
      omega

/-- From 2024-01-31 12:00 UTC the monthly branch with lookahead 3 returns the two
entries `2024-01` and `2024-03`, as on calendar days. -/
theorem zone_monthly_from_jan31_utc :
    (Zone.CreateMilestoneData 0 3 "monthly" ⟨1706702400, Zone.UTC⟩).map (fun M => M.keys)
      = some ["2024-03", "2024-01"] := by
  decide
/-! ## Reconciliation: the claims -/

/-- C1: the map `newMilestones` computed by `CreateAndDisplayNewMilestones` is the
desired map restricted to the titles that are not keys of the active map: a title is a
key of it exactly when it is a key of `desired` and not of `active`, and every title
maps to the entry it has in `desired`. -/
theorem C1_newMilestones_eq_desired_minus_active (desired active : GoMap) :
    (∀ t, t ∈ newMilestones desired active ↔ t ∈ desired ∧ t ∉ active) ∧
    (∀ t, t ∈ newMilestones desired active →
      (newMilestones desired active).lookup t = desired.lookup t) ∧
    (∀ api, CreateAndDisplayNewMilestones api desired
      = newMilestones desired (createGitlabMilestoneMap api)) := by
  refine ⟨newMilestones_mem desired active, ?_, fun _ => rfl⟩
  intro t ht
  have h := (newMilestones_mem desired active t).1 ht
  rw [newMilestones_lookup, if_neg h.2]

/-- C2: the map returned by `GetClosedMilestones` has a title as key exactly when the
title is a key of both the desired map and the closed map built by
`createGitlabMilestoneMap`; the value stored under it is the closed map's record, which
carries the id, due date and title of a remote record; due dates are not inspected. -/
theorem C2_GetClosedMilestones_eq_closed_inter_desired (api : List gitlabAPI)
    (desired : GoMap) :
    (∀ t, t ∈ GetClosedMilestones api desired
        ↔ t ∈ desired ∧ t ∈ createGitlabMilestoneMap api) ∧
    (∀ t, t ∈ GetClosedMilestones api desired →
      (GetClosedMilestones api desired).lookup t = (createGitlabMilestoneMap api).lookup t) ∧
    (∀ t m, (GetClosedMilestones api desired).lookup t = some m →
      ∃ v ∈ api, v.Title = t ∧
        m = { DueDate := v.DueDate, ID := Itoa v.ID, Title := v.Title, State := "" }) := by
  have hl : ∀ t, (GetClosedMilestones api desired).lookup t
      = if t ∈ desired then (createGitlabMilestoneMap api).lookup t else none :=
    fun t => closedMilestones_lookup desired (createGitlabMilestoneMap api) t
  have hm : ∀ t, t ∈ GetClosedMilestones api desired
        ↔ t ∈ desired ∧ t ∈ createGitlabMilestoneMap api :=
    fun t => closedMilestones_mem desired (createGitlabMilestoneMap api) t
  refine ⟨hm, ?_, ?_⟩
  · intro t ht
    rw [hl, if_pos ((hm t).1 ht).1]
  · intro t m h
    rw [hl] at h
    by_cases hd : t ∈ desired
    · rw [if_pos hd] at h
      exact createGitlabMilestoneMap_lookup api t m h
    · rw [if_neg hd] at h
      exact absurd h (by simp)

/-- C3, as stated, fails: with desired `{A, B, C}`, active `{A}` and closed `{B}` the
create set of `CreateAndDisplayNewMilestones` is not `{C}`, it also holds `B`. -/
theorem C3_counterexample :
    ¬ (∀ t, t ∈ CreateAndDisplayNewMilestones [remoteRecord 1 "A" "2024-01-01"] desiredABC
        ↔ t = "C") := by
  intro h
  have hB : "B" ∈ CreateAndDisplayNewMilestones [remoteRecord 1 "A" "2024-01-01"] desiredABC := by
    decide
  exact absurd ((h "B").1 hB) (by decide)

/-- C3, amended: for pairwise distinct titles `A`, `B`, `C`, a desired map with keys
`{A, B, C}`, an active map with keys `{A}` and a closed map with keys `{B}`, the create
set has keys `{B, C}` (the closed title `B` is not active, so it stays in the create
set) and the reactivation map has keys `{B}`, with the closed map's record, so `C`
is not reactivated. -/
theorem C3_reconcile_ABC (A B C : String) (hAB : A ≠ B) (hAC : A ≠ C) (hBC : B ≠ C)
    (desired active closed : GoMap)
    (hd : ∀ t, t ∈ desired ↔ t = A ∨ t = B ∨ t = C)
    (ha : ∀ t, t ∈ active ↔ t = A)
    (hc : ∀ t, t ∈ closed ↔ t = B) :
    (∀ t, t ∈ newMilestones desired active ↔ t = B ∨ t = C) ∧
    (∀ t, t ∈ closedMilestones desired closed ↔ t = B) ∧
    (closedMilestones desired closed).lookup B = closed.lookup B ∧
    C ∉ closedMilestones desired closed := by
  refine ⟨?_, ?_, ?_, ?_⟩
  · intro t
    rw [newMilestones_mem, hd, ha]
    constructor
    · rintro ⟨h1 | h1 | h1, h2⟩
      · exact absurd h1 h2
      · exact Or.inl h1
      · exact Or.inr h1
    · rintro (h | h)
      · exact ⟨Or.inr (Or.inl h), fun h2 => hAB (h2.symm.trans h)⟩
      · exact ⟨Or.inr (Or.inr h), fun h2 => hAC (h2.symm.trans h)⟩
  · intro t
    rw [closedMilestones_mem, hd, hc]
    constructor
    · exact fun h => h.2
    · exact fun h => ⟨Or.inr (Or.inl h), h⟩
  · rw [closedMilestones_lookup, if_pos ((hd B).2 (Or.inr (Or.inl rfl)))]
  · rw [closedMilestones_mem, hc]
    exact fun h => hBC h.2.symm

/-- The amended C3 at the titles `"A"`, `"B"`, `"C"`, with the records built by
`createGitlabMilestoneMap`. -/
theorem C3_reconcile_ABC_witness :
    (∀ t, t ∈ newMilestones desiredABC (createGitlabMilestoneMap [remoteRecord 1 "A" "d"])
      ↔ t = "B" ∨ t = "C") ∧
    (∀ t, t ∈ closedMilestones desiredABC (createGitlabMilestoneMap [remoteRecord 2 "B" "d"])
      ↔ t = "B") ∧
    (closedMilestones desiredABC
        (createGitlabMilestoneMap [remoteRecord 2 "B" "d"])).lookup "B"
      = (createGitlabMilestoneMap [remoteRecord 2 "B" "d"]).lookup "B" ∧
    "C" ∉ closedMilestones desiredABC (createGitlabMilestoneMap [remoteRecord 2 "B" "d"]) :=
  C3_reconcile_ABC "A" "B" "C" (by decide) (by decide) (by decide)
    desiredABC (createGitlabMilestoneMap [remoteRecord 1 "A" "d"])
    (createGitlabMilestoneMap [remoteRecord 2 "B" "d"])
    (by
      intro t
      simp only [desiredABC, AList.mem_insert]
      have : t ∉ (∅ : GoMap) := AList.not_mem_empty t
      tauto)
    (by
      intro t
      simp [createGitlabMilestoneMap, remoteRecord, AList.mem_keys, AList.keys_singleton])
    (by
      intro t
      simp [createGitlabMilestoneMap, remoteRecord, AList.mem_keys, AList.keys_singleton])

/-- C9: creation is idempotent.  If `active2` holds every title of `active` and every
title of the create set computed from `desired` and `active` (the first run's creates
are now active), the create set computed from `desired` and `active2` is empty. -/
theorem C9_second_run_creates_nothing (desired active active2 : GoMap)
    (hold : ∀ t, t ∈ active → t ∈ active2)
    (hnew : ∀ t, t ∈ newMilestones desired active → t ∈ active2) :
    newMilestones desired active2 = ∅ := by
  have hmem : ∀ t, t ∉ newMilestones desired active2 := by
    intro t ht
    have h := (newMilestones_mem desired active2 t).1 ht
    by_cases h1 : t ∈ active
    · exact h.2 (hold t h1)
    · exact h.2 (hnew t ((newMilestones_mem desired active t).2 ⟨h.1, h1⟩))
  apply AList.ext
  cases hE : (newMilestones desired active2).entries with
  | nil => rfl
  | cons e l =>
    exfalso
    apply hmem e.1
    rw [AList.mem_keys, AList.keys, hE]
    simp [List.keys]

/-- C9 at the desired map `{A, B, C}`, with active `{A}` at the first run and active
`{A, B, C}` at the second. -/
theorem C9_second_run_creates_nothing_witness :
    newMilestones desiredABC desiredABC = ∅ :=
  C9_second_run_creates_nothing desiredABC
    (createGitlabMilestoneMap [remoteRecord 1 "A" "d"]) desiredABC
    (by
      intro t
      simp only [createGitlabMilestoneMap, remoteRecord, desiredABC, List.foldl_cons,
        List.foldl_nil, AList.mem_insert]
      tauto)
    (by
      intro t ht
      exact ((newMilestones_mem _ _ t).1 ht).1)

/-! ## The period calculator: the claims -/

/-- C4: in the monthly branch of `CreateMilestoneData` the milestone of index `i` has as
title the date `d = today + i months` in the layout `2006-01` and as due date the day
`lastDayMonth d.Year d.Month` in the layout `2006-01-02`.  That day lies in the year and
month of `d`, it is the last day of that month, and the day after it is the 1st of the
following month (January of the next year after December).  For 2024-02-01 the due date
is 2024-02-29, for 2023-02-01 it is 2023-02-28, and a December date gives 31 December
of the same year. -/
theorem C4_monthly_due_is_last_day_of_month (today : Time) (i : Nat) :
    (monthlyMilestone today i).Title = (today.AddDate 0 i 0).Format_2006_01 ∧
    (monthlyMilestone today i).DueDate
      = (lastDayMonth (today.AddDate 0 i 0).Year (today.AddDate 0 i 0).Month).Format_2006_01_02 ∧
    (lastDayMonth (today.AddDate 0 i 0).Year (today.AddDate 0 i 0).Month).Year
      = (today.AddDate 0 i 0).Year ∧
    (lastDayMonth (today.AddDate 0 i 0).Year (today.AddDate 0 i 0).Month).Month
      = (today.AddDate 0 i 0).Month ∧
    ((lastDayMonth (today.AddDate 0 i 0).Year (today.AddDate 0 i 0).Month).AddDate 0 0 1).abs
      = (lastDayMonth (today.AddDate 0 i 0).Year (today.AddDate 0 i 0).Month).abs + 1 ∧
    ((lastDayMonth (today.AddDate 0 i 0).Year (today.AddDate 0 i 0).Month).AddDate 0 0 1).Day
      = 1 ∧
    ((lastDayMonth (today.AddDate 0 i 0).Year (today.AddDate 0 i 0).Month).AddDate 0 0 1).Month
      = (if (today.AddDate 0 i 0).Month = 12 then 1 else (today.AddDate 0 i 0).Month + 1) ∧
    ((lastDayMonth (today.AddDate 0 i 0).Year (today.AddDate 0 i 0).Month).AddDate 0 0 1).Year
      = (if (today.AddDate 0 i 0).Month = 12 then (today.AddDate 0 i 0).Year + 1
          else (today.AddDate 0 i 0).Year) ∧
    (∀ (fuel n : Nat), CreateMilestoneData fuel n "monthly" today
      = some (storeAll ((List.range n).map (monthlyMilestone today)))) ∧
    (monthlyMilestone (Date 2024 2 1) 0).DueDate = "2024-02-29" ∧
    (monthlyMilestone (Date 2023 2 1) 0).DueDate = "2023-02-28" ∧
    (monthlyMilestone (Date 2023 12 15) 0).DueDate = "2023-12-31" ∧
    (monthlyMilestone (Date 2023 11 15) 1).DueDate = "2023-12-31" := by
  refine ⟨rfl, rfl, ?_⟩
  generalize today.AddDate 0 i 0 = d
  have hv := d.fields_valid
  have hL := lastDayMonth_eq d.Year d.Month hv.1 hv.2.1
  have hp := daysIn_pos (isLeap d.Year) d.Month
  have hf := Date_fields d.Year d.Month (daysIn (isLeap d.Year) d.Month) hv.1 hv.2.1
    (by omega) (le_refl _)
  have hnext : (lastDayMonth d.Year d.Month).AddDate 0 0 1
      = Date (if d.Month = 12 then d.Year + 1 else d.Year)
          (if d.Month = 12 then 1 else d.Month + 1) 1 := by
    rw [AddDate_days, hL]
    have := Date_next_month d.Year d.Month hv.1 hv.2.1
    cases hD : Date (if d.Month = 12 then d.Year + 1 else d.Year)
        (if d.Month = 12 then 1 else d.Month + 1) 1 with
    | mk a =>
      rw [hD] at this
      simp only at this
      rw [this]
  have hm : 1 ≤ (if d.Month = 12 then 1 else d.Month + 1) ∧
      (if d.Month = 12 then 1 else d.Month + 1) ≤ 12 := by
    split <;> omega
  have hp2 := daysIn_pos (isLeap (if d.Month = 12 then d.Year + 1 else d.Year))
    (if d.Month = 12 then 1 else d.Month + 1)
  have hf2 := Date_fields (if d.Month = 12 then d.Year + 1 else d.Year)
    (if d.Month = 12 then 1 else d.Month + 1) 1 hm.1 hm.2 (le_refl _) (by omega)
  refine ⟨?_, ?_, ?_, ?_, ?_, ?_, ?_, by decide, by decide, by decide, by decide⟩
  · rw [hL]; exact hf.1
  · rw [hL]; exact hf.2.1
  · rw [AddDate_days]
  · rw [hnext]; exact hf2.2.2
  · rw [hnext]; exact hf2.2.1
  · rw [hnext]; exact hf2.1
  · intro fuel n
    simp [CreateMilestoneData]

/-- C5, as stated, fails: in `America/Sao_Paulo`, from Monday 2018-10-29 00:30 local
time, the sixth step of the loop of `lastDayWeek` asks for 2018-11-04 00:30, which the
start of daylight saving time skipped, and lands on Saturday 2018-11-03 23:30; the loop
has not ended after six steps and ends with the seventh, on Sunday 2018-11-04 23:30. -/
theorem C5_counterexample :
    (⟨1540783800, Zone.SaoPaulo⟩ : Zone.Time).Format_2006_01_02 = "2018-10-29" ∧
      (⟨1540783800, Zone.SaoPaulo⟩ : Zone.Time).Weekday = 1 ∧
      (⟨1541215800, Zone.SaoPaulo⟩ : Zone.Time).AddDate 0 0 1 = ⟨1541298600, Zone.SaoPaulo⟩ ∧
      (⟨1541298600, Zone.SaoPaulo⟩ : Zone.Time).Format_2006_01_02 = "2018-11-03" ∧
      Zone.lastDayWeek 6 ⟨1540783800, Zone.SaoPaulo⟩ = none ∧
      Zone.lastDayWeek 7 ⟨1540783800, Zone.SaoPaulo⟩ = some ⟨1541381400, Zone.SaoPaulo⟩ ∧
      (⟨1541381400, Zone.SaoPaulo⟩ : Zone.Time).Format_2006_01_02 = "2018-11-04" := by
  have w0 : (⟨1540783800, Zone.SaoPaulo⟩ : Zone.Time).Weekday = 1 := by decide
  have w1 : (⟨1540870200, Zone.SaoPaulo⟩ : Zone.Time).Weekday = 2 := by decide
  have w2 : (⟨1540956600, Zone.SaoPaulo⟩ : Zone.Time).Weekday = 3 := by decide
  have w3 : (⟨1541043000, Zone.SaoPaulo⟩ : Zone.Time).Weekday = 4 := by decide
  have w4 : (⟨1541129400, Zone.SaoPaulo⟩ : Zone.Time).Weekday = 5 := by decide
  have w5 : (⟨1541215800, Zone.SaoPaulo⟩ : Zone.Time).Weekday = 6 := by decide
  have w6 : (⟨1541298600, Zone.SaoPaulo⟩ : Zone.Time).Weekday = 6 := by decide
  have w7 : (⟨1541381400, Zone.SaoPaulo⟩ : Zone.Time).Weekday = 0 := by decide
  have a0 : (⟨1540783800, Zone.SaoPaulo⟩ : Zone.Time).AddDate 0 0 1
      = ⟨1540870200, Zone.SaoPaulo⟩ := by decide
  have a1 : (⟨1540870200, Zone.SaoPaulo⟩ : Zone.Time).AddDate 0 0 1
      = ⟨1540956600, Zone.SaoPaulo⟩ := by decide
  have a2 : (⟨1540956600, Zone.SaoPaulo⟩ : Zone.Time).AddDate 0 0 1
      = ⟨1541043000, Zone.SaoPaulo⟩ := by decide
  have a3 : (⟨1541043000, Zone.SaoPaulo⟩ : Zone.Time).AddDate 0 0 1
      = ⟨1541129400, Zone.SaoPaulo⟩ := by decide
  have a4 : (⟨1541129400, Zone.SaoPaulo⟩ : Zone.Time).AddDate 0 0 1
      = ⟨1541215800, Zone.SaoPaulo⟩ := by decide
  have a5 : (⟨1541215800, Zone.SaoPaulo⟩ : Zone.Time).AddDate 0 0 1
      = ⟨1541298600, Zone.SaoPaulo⟩ := by decide
  have a6 : (⟨1541298600, Zone.SaoPaulo⟩ : Zone.Time).AddDate 0 0 1
      = ⟨1541381400, Zone.SaoPaulo⟩ := by decide
  refine ⟨by decide, w0, a5, by decide, ?_, ?_, by decide⟩
  · simp [Zone.lastDayWeek, Zone.lastDayWeekLoop, Sunday, w0, w1, w2, w3, w4, w5, w6,
      a0, a1, a2, a3, a4, a5]
  · simp [Zone.lastDayWeek, Zone.lastDayWeekLoop, Sunday, w0, w1, w2, w3, w4, w5, w6, w7,
      a0, a1, a2, a3, a4, a5, a6]

/-- C5, amended: in a location without zone transitions (a fixed offset, such as UTC),
`lastDayWeek` returns, after at most six steps of its loop, the first Sunday `S` at or
after `today`, at the same time of day: `S` is a Sunday, `today <= S <= today + 6` days,
`S = today` when `today` is a Sunday, `S` is four days after a Wednesday, and `S` has
the ISO year and week of `today`.  The weekly branch of `CreateMilestoneData` with
lookahead `n` then stores `n` milestones whose due dates are, in order, the dates of
`S`, `S + 7`, ..., `S + 7 (n - 1)` days. -/
theorem C5_weekly_due_dates_fixed_offset (today : Zone.Time) (n k : Nat)
    (hloc : today.loc.tx = []) :
    ∃ S : Zone.Time, Zone.lastDayWeek (6 + k) today = some S ∧
      S.Weekday = Sunday ∧ S.loc = today.loc ∧
      today.unix ≤ S.unix ∧ S.unix ≤ today.unix + 86400 * 6 ∧
      today.day ≤ S.day ∧ S.day ≤ today.day + 6 ∧
      (today.Weekday = Sunday → S = today) ∧
      (today.Weekday = 3 → S.day = today.day + 4 ∧ S.unix = today.unix + 86400 * 4) ∧
      S.ISOWeek = today.ISOWeek ∧
      ∃ ms : List milestone, Zone.weeklyMilestones (6 + k) n today = some ms ∧
        Zone.CreateMilestoneData (6 + k) n "weekly" today = some (storeAll ms) ∧
        ms.length = n ∧
        ms.map (fun m => m.DueDate)
          = (List.range n).map (fun (i : Nat) =>
              (⟨S.unix + 86400 * (7 * (i : Int)), S.loc⟩ : Zone.Time).Format_2006_01_02) := by
  have hr := sundayGap_range ⟨today.day⟩
  have hS : (⟨today.unix + 86400 * sundayGap ⟨today.day⟩, today.loc⟩ : Zone.Time).loc.tx = [] :=
    hloc
  have hday := zone_day_shift today hloc (sundayGap ⟨today.day⟩)
  refine ⟨⟨today.unix + 86400 * sundayGap ⟨today.day⟩, today.loc⟩,
    zone_lastDayWeek_eq _ _ hloc (by omega), ?_, rfl, ?_, ?_, ?_, ?_, ?_, ?_, ?_, ?_⟩
  · rw [zone_Weekday_eq, hday]
    have := sundayGap_add_seven ⟨today.day⟩ 0
    simp only [mul_zero, add_zero] at this
    exact (sundayGap_zero_iff _).1 this
  · simp only; omega
  · simp only; omega
  · rw [hday]; omega
  · rw [hday]; omega
  · intro h
    rw [zone_Weekday_eq] at h
    rw [(sundayGap_zero_iff ⟨today.day⟩).2 h, mul_zero, add_zero]
  · intro h
    rw [zone_Weekday_eq] at h
    have hg : sundayGap ⟨today.day⟩ = 4 := by
      unfold sundayGap
      rw [h]
      norm_num
    rw [hday, hg]
    exact ⟨rfl, rfl⟩
  · rw [zone_ISOWeek_eq, zone_ISOWeek_eq, hday]
    exact ISOWeek_sunday ⟨today.day⟩
  · refine ⟨_, zone_weeklyMilestones_eq (6 + k) (by omega) n today hloc, ?_, ?_, ?_⟩
    · simp [Zone.CreateMilestoneData, zone_weeklyMilestones_eq (6 + k) (by omega) n today hloc]
    · simp
    · rw [List.map_map]
      apply List.map_congr_left
      intro i _
      simp only [Function.comp, weeklyMilestone, zone_Format_eq]
      have := zone_day_shift ⟨today.unix + 86400 * sundayGap ⟨today.day⟩, today.loc⟩ hS
        (7 * (i : Int))
      rw [this, hday]

/-- The amended C5 at Wednesday 2024-01-03 12:00 UTC with lookahead 3: the loop ends on
the Sunday four days later and three milestones are stored. -/
theorem C5_weekly_due_dates_fixed_offset_witness :
    (⟨1704283200, Zone.UTC⟩ : Zone.Time).loc.tx = [] ∧
      (⟨1704283200, Zone.UTC⟩ : Zone.Time).Weekday = 3 ∧
      ∃ S : Zone.Time, Zone.lastDayWeek 6 ⟨1704283200, Zone.UTC⟩ = some S ∧
        S.Weekday = Sunday ∧ S.unix = 1704283200 + 86400 * 4 ∧
        ∃ ms : List milestone,
          Zone.weeklyMilestones 6 3 ⟨1704283200, Zone.UTC⟩ = some ms ∧ ms.length = 3 := by
  have hw : (⟨1704283200, Zone.UTC⟩ : Zone.Time).Weekday = 3 := by decide
  obtain ⟨S, h1, h2, _, _, _, _, _, _, h3, _, ms, h4, _, h5, _⟩ :=
    C5_weekly_due_dates_fixed_offset ⟨1704283200, Zone.UTC⟩ 3 0 rfl
  exact ⟨rfl, hw, S, h1, h2, (h3 hw).2, ms, h4, h5⟩

/-- The body of the daily loop in a location without zone transitions is that of the
calendar-day model on the local day of `today`. -/
theorem zone_dailyMilestone_fixed (today : Zone.Time) (hloc : today.loc.tx = []) (i : Nat) :
    Zone.dailyMilestone today i = dailyMilestone ⟨today.day⟩ i := by
  unfold Zone.dailyMilestone
  rw [addDate_days_fixed today hloc, zone_Format_eq, zone_day_shift today hloc, dailyMilestone_eq]
  rfl

/-- In a location without zone transitions the daily branch of `CreateMilestoneData`
with lookahead `n` returns a map of exactly `n` entries, keyed by the `n` consecutive
local days from `today` on in the layout `2006-01-02`, each with title and due date
equal to its key. -/
theorem daily_fixed_offset (today : Zone.Time) (hloc : today.loc.tx = []) (n fuel : Nat) :
    ∃ M : GoMap, Zone.CreateMilestoneData fuel n "daily" today = some M ∧
      (∀ t, t ∈ M ↔ ∃ i : Nat, i < n ∧ t = (⟨today.day + i⟩ : Time).Format_2006_01_02) ∧
      M.entries.length = n ∧
      (∀ t m, M.lookup t = some m → m.Title = t ∧ m.DueDate = t) := by
  have e : (List.range n).map (Zone.dailyMilestone today)
      = (List.range n).map (dailyMilestone ⟨today.day⟩) :=
    List.map_congr_left (fun i _ => zone_dailyMilestone_fixed today hloc i)
  refine ⟨storeAll ((List.range n).map (dailyMilestone ⟨today.day⟩)), ?_,
    daily_mem ⟨today.day⟩ n, daily_length ⟨today.day⟩ n, daily_lookup ⟨today.day⟩ n⟩
  simp [Zone.CreateMilestoneData, e]

/-- C6 fails on the code: in `America/Sao_Paulo`, from 2018-11-02 00:30 local time,
`AddDate(0, 0, 2)` asks for 2018-11-04 00:30, which the start of daylight saving time
skipped, and yields 2018-11-03 23:30; the daily branch with lookahead 4 returns a map
of three entries, 2018-11-02, 2018-11-03 and 2018-11-05, without 2018-11-04. -/
theorem C6_daily_loses_day_at_dst_gap :
    (⟨1541129400, Zone.SaoPaulo⟩ : Zone.Time).Format_2006_01_02 = "2018-11-02" ∧
      (⟨1541129400, Zone.SaoPaulo⟩ : Zone.Time).AddDate 0 0 2 = ⟨1541298600, Zone.SaoPaulo⟩ ∧
      (⟨1541298600, Zone.SaoPaulo⟩ : Zone.Time).Format_2006_01_02 = "2018-11-03" ∧
      (Zone.CreateMilestoneData 0 4 "daily" ⟨1541129400, Zone.SaoPaulo⟩).map (fun M => M.keys)
        = some ["2018-11-05", "2018-11-03", "2018-11-02"] ∧
      (Zone.CreateMilestoneData 0 4 "daily" ⟨1541129400, Zone.SaoPaulo⟩).map
          (fun M => M.entries.length) = some 3 := by
  refine ⟨by decide, by decide, by decide, by decide, by decide⟩

/-- C8, as stated, fails: from Monday 2024-01-29 the weekly branch stores the due date
2024-02-04, a Sunday of ISO week 5 of 2024, under the title `2024-w5`; the week is not
written with two digits. -/
theorem C8_counterexample :
    weeklyMilestones 6 1 (Date 2024 1 29)
        = some [{ DueDate := "2024-02-04", ID := "", Title := "2024-w5", State := "" }] ∧
      (Date 2024 2 4).ISOWeek = (2024, 5) ∧ "2024-w5" ≠ "2024-w05" := by
  refine ⟨?_, by decide, by decide⟩
  rw [weeklyMilestones_eq 6 (le_refl _)]
  have h1 : Date 2024 1 29 = ⟨738913⟩ := by decide
  have h2 : sundayGap ⟨738913⟩ = 6 := by decide
  rw [h1, h2]
  decide

/-- C8, amended: every milestone stored by the weekly branch has, for its due Sunday,
the title `Itoa year ++ "-w" ++ Itoa week`, where `year` and `week` are the ISO year and
ISO week of the due date: the year is that of the Thursday three days before the due
Sunday, the week lies between 1 and 53 and is written without padding, with one digit
for the weeks 1 to 9 and two digits from week 10 on. -/
theorem C8_weekly_title_iso_week_unpadded (today : Time) (n k : Nat) :
    ∃ ms : List milestone, weeklyMilestones (6 + k) n today = some ms ∧
      ms.length = n ∧
      ∀ m ∈ ms, ∃ due : Time, due.Weekday = Sunday ∧
        m.DueDate = due.Format_2006_01_02 ∧
        m.Title = Itoa due.ISOWeek.1 ++ "-w" ++ Itoa due.ISOWeek.2 ∧
        due.ISOWeek.1 = (⟨due.abs - 3⟩ : Time).Year ∧
        1 ≤ due.ISOWeek.2 ∧ due.ISOWeek.2 ≤ 53 ∧
        (Itoa due.ISOWeek.2).length = (if due.ISOWeek.2 ≤ 9 then 1 else 2) := by
  refine ⟨_, weeklyMilestones_eq (6 + k) (by omega) n today, by simp, ?_⟩
  intro m hm
  obtain ⟨i, _, rfl⟩ := List.mem_map.1 hm
  have hw : (⟨today.abs + sundayGap today + 7 * (i : Int)⟩ : Time).Weekday = Sunday :=
    (sundayGap_zero_iff _).1 (by
      have := sundayGap_add_seven today i
      have h0 := sundayGap_add_seven ⟨today.abs + sundayGap today + 7 * (i : Int)⟩ 0
      simp only [mul_zero, add_zero] at h0
      rw [this, add_zero] at h0
      exact h0)
  have hr := ISOWeek_range ⟨today.abs + sundayGap today + 7 * (i : Int)⟩
  refine ⟨⟨today.abs + sundayGap today + 7 * (i : Int)⟩, hw, rfl, rfl, ?_, hr.1, hr.2,
    Itoa_week_length _ hr.1 hr.2⟩
  unfold Time.ISOWeek Time.Year
  rw [hw]
  simp [Thursday, Sunday, sub_eq_add_neg]

/-- C10 fails on the code: from 2024-01-31 the dates `today + i months` for `i = 0, 1, 2`
are 2024-01-31, 2024-03-02 (the 31st of February, normalised) and 2024-03-31, so the
monthly branch with lookahead 3 returns a map of two entries, `2024-01` and `2024-03`,
and no milestone for February. -/
theorem C10_monthly_skips_february :
    (Date 2024 1 31).AddDate 0 1 0 = Date 2024 3 2 ∧
      (Date 2024 1 31).AddDate 0 2 0 = Date 2024 3 31 ∧
      (CreateMilestoneData 6 3 "monthly" (Date 2024 1 31)).map (fun M => M.keys)
        = some ["2024-03", "2024-01"] ∧
      (CreateMilestoneData 6 3 "monthly" (Date 2024 1 31)).map (fun M => M.entries.length)
        = some 2 := by
  decide

/-! ## Pagination: the claim -/

/-- C7 fails on the code: the remote `threePages` serves the chain of three pages `p1`,
`p2`, `p3` (the first two with a `next` link, the third without), and `paginate`
terminates on it without error, but it returns four payloads, the nil slice of
`make([][]byte, 1)` followed by the three bodies; for a single page it returns two
payloads. -/
theorem C7_paginate_leading_nil_payload :
    servesChain threePages "token" "p1" [[1], [2], [3]] ∧
      paginate threePages 3 "p1" "token" = some (.ok [[], [1], [2], [3]]) ∧
      ([[], [1], [2], [3]] : List Bytes).length = 4 ∧
      servesChain onePage "token" "p1" [[91, 93]] ∧
      paginate onePage 1 "p1" "token" = some (.ok [[], [91, 93]]) := by
  refine ⟨?_, rfl, rfl, ?_, rfl⟩
  · simp [servesChain, threePages, nextPage]
  · simp [servesChain, onePage, nextPage]

end GoMiler
